import Mathlib

/-!
Verification of the GunnyScript parser (crate `gunnyscript` of `gunny-rs`).

This file shallowly embeds the parsing core of the repository:

* `src/gunnyscript/src/number.rs`   — numeric literal classification
* `src/gunnyscript/src/encoding.rs` — the iterator-based `Utf8Decoder`
* `src/gunnyscript/src/parser.rs`   — the streaming event lexer (`Parser`)
* `src/gunnyscript/src/value.rs`    — the document builder (`DocValue`)

Machine integers (`u64`, `i64`, the raw bits of the `I64F64` fixed-point
type) are embedded as `Nat`/`Int` with explicit range checks exactly where
the Rust code relies on checked arithmetic.  Byte buffers (`bytes::Buf`)
are embedded as `List Nat` consumed from the front.  Rust `while` loops
become fuel-indexed structural recursions; the distinguished `fuelOut`
result marks fuel exhaustion (never reached at the fuel used by the
concrete theorems), and universally quantified theorems hold for every
fuel value.
-/

set_option linter.unusedVariables false
set_option maxRecDepth 2000

namespace Gunny

/-- Error kinds of Rust's `core::num::ParseIntError`. -/
inductive IntErrKind
  | empty
  | invalidDigit
  | posOverflow
  | negOverflow
deriving DecidableEq, Repr

/-- Error kinds of the `fixed` crate's `ParseFixedError`. -/
inductive FixedErrKind
  | invalid
  | overflow
deriving DecidableEq, Repr

/-- A calendar date as produced by `time::Date` (year, month 1-12, day). -/
structure GDate where
  year : Int
  month : Nat
  day : Nat
deriving DecidableEq, Repr

/-- An RFC3339 date-time as produced by `time::OffsetDateTime`:
date plus time-of-day, nanoseconds and a UTC offset in minutes. -/
structure GDateTime where
  date : GDate
  hour : Nat
  minute : Nat
  second : Nat
  nano : Nat
  offset_minutes : Int
deriving DecidableEq, Repr

/-- `ParseError` from `src/gunnyscript/src/error.rs`.  Payloads of the
external error types (`ParseIntError`, `ParseFixedError`, the `time`
errors) are reduced to their kind. -/
inductive ParseError
  | InvalidUtf8
  | UnexpectedChar (c : Char)
  | InvalidIdentifier (s : String)
  | InvalidPropertyNameChar (c : Char)
  | InvalidEscapeSequence (c : Char)
  | InvalidLiteralStringChar (c : Char)
  | InvalidHexNumber (e : IntErrKind)
  | InvalidSignedNumber (e : IntErrKind)
  | InvalidUnsignedNumber (e : IntErrKind)
  | InvalidFixedPointNumber (e : FixedErrKind)
  | InvalidOctalNumber (e : IntErrKind)
  | InvalidCommentDelimiter (c : Char)
  | UnexpectedDocComment
  | InvalidDateTime
  | MissingYearInDate
  | MissingMonthInDate
  | MissingDayInDate
  | InvalidDateYear (e : IntErrKind)
  | InvalidDateMonth (e : IntErrKind)
  | InvalidDateDay (e : IntErrKind)
  | InvalidDate
  | DanglingDocComment
  | UnexpectedItem
  | DuplicatePropertyName (s : String)
deriving DecidableEq, Repr

/-- Result type mirroring Rust's `Result`, with decidable equality. -/
inductive ERes (ε α : Type)
  | ok (a : α)
  | err (e : ε)
deriving DecidableEq, Repr

/-- `Number` from `src/gunnyscript/src/number.rs`.  `Unsigned` carries a
`u64` value (a `Nat` below `2^64`); `Signed` carries an `i64`; `Fixed`
carries the raw 128-bit two's-complement value of the `I64F64` fixed-point
number, i.e. an integer `raw` with `-2^127 ≤ raw < 2^127` denoting the
rational `raw / 2^64`. -/
inductive Number
  | Unsigned (u : Nat)
  | Signed (i : Int)
  | Fixed (raw : Int)
deriving DecidableEq, Repr

/-! ### Integer parsing (Rust `core::num::from_str_radix`) -/

/-- `char::to_digit(radix)`. -/
def char_to_digit (radix : Nat) (c : Char) : Option Nat :=
  let v : Option Nat :=
    if '0' ≤ c ∧ c ≤ '9' then some (c.toNat - '0'.toNat)
    else if 'a' ≤ c ∧ c ≤ 'z' then some (c.toNat - 'a'.toNat + 10)
    else if 'A' ≤ c ∧ c ≤ 'Z' then some (c.toNat - 'A'.toNat + 10)
    else none
  match v with
  | some d => if d < radix then some d else none
  | none => none

/-- The digit-accumulation loop of `u64::from_str_radix`: checked
multiply-and-add on a `u64` accumulator. -/
def u64_digits_loop (radix : Nat) : List Char → Nat → ERes IntErrKind Nat
  | [], acc => .ok acc
  | c :: cs, acc =>
    match char_to_digit radix c with
    | none => .err .invalidDigit
    | some d =>
      let acc' := acc * radix + d
      if acc' < 2 ^ 64 then u64_digits_loop radix cs acc' else .err .posOverflow

/-- `u64::from_str_radix`: an empty string is `Empty`; a leading `+` is
consumed (a bare sign is `InvalidDigit`); a `-` is not special for an
unsigned type and fails as `InvalidDigit` in the digit loop. -/
def u64_from_str_radix (radix : Nat) (s : List Char) : ERes IntErrKind Nat :=
  match s with
  | [] => .err .empty
  | ['+'] => .err .invalidDigit
  | ['-'] => .err .invalidDigit
  | '+' :: rest => u64_digits_loop radix rest 0
  | _ => u64_digits_loop radix s 0

/-- Positive digit loop of `i64::from_str` (base 10), checked against
`i64::MAX`. -/
def i64_digits_pos : List Char → Int → ERes IntErrKind Int
  | [], acc => .ok acc
  | c :: cs, acc =>
    match char_to_digit 10 c with
    | none => .err .invalidDigit
    | some d =>
      let acc' := acc * 10 + d
      if acc' ≤ 2 ^ 63 - 1 then i64_digits_pos cs acc' else .err .posOverflow

/-- Negative digit loop of `i64::from_str` (base 10), checked against
`i64::MIN`. -/
def i64_digits_neg : List Char → Int → ERes IntErrKind Int
  | [], acc => .ok acc
  | c :: cs, acc =>
    match char_to_digit 10 c with
    | none => .err .invalidDigit
    | some d =>
      let acc' := acc * 10 - d
      if -(2 ^ 63) ≤ acc' then i64_digits_neg cs acc' else .err .negOverflow

/-- `i64::from_str` (i.e. `s.parse::<i64>()`), base 10 with sign. -/
def i64_from_str (s : List Char) : ERes IntErrKind Int :=
  match s with
  | [] => .err .empty
  | ['+'] => .err .invalidDigit
  | ['-'] => .err .invalidDigit
  | '+' :: rest => i64_digits_pos rest 0
  | '-' :: rest => i64_digits_neg rest 0
  | _ => i64_digits_pos s 0

/-! ### Fixed-point parsing (`fixed::types::I64F64::from_str`) -/

/-- Round `num / den` to the nearest integer, ties to even. -/
def round_half_even_div (num den : Nat) : Nat :=
  let q := num / den
  let r := num % den
  if 2 * r < den then q
  else if den < 2 * r then q + 1
  else if q % 2 = 0 then q else q + 1

/-- Value of a list of decimal digit characters. -/
def digits_value : List Char → Nat → Nat
  | [], acc => acc
  | c :: cs, acc => digits_value cs (acc * 10 + (c.toNat - '0'.toNat))

/-- Split a character list at the first `.`, if any. -/
def split_at_dot : List Char → (List Char × Option (List Char))
  | [] => ([], none)
  | '.' :: rest => ([], some rest)
  | c :: rest =>
    let (intp, fracp) := split_at_dot rest
    (c :: intp, fracp)

def all_dec_digits (l : List Char) : Bool :=
  l.all fun c => decide ('0' ≤ c ∧ c ≤ '9')

/-- Modelled from the spec: `Fixed::from_str` of the external `fixed`
crate (the spec fixes the type as signed 64.64 fixed point).  The string
is an optional sign, decimal digits with at most one `.` and at least one
digit; the exact decimal value is rounded to the nearest representable
multiple of `2^-64` (ties to even) and range-checked against the 128-bit
representation. -/
def fixed_from_str (s : List Char) : ERes FixedErrKind Int :=
  let (neg, rest) :=
    match s with
    | '-' :: r => (true, r)
    | '+' :: r => (false, r)
    | _ => (false, s)
  let (intp, maybe_fracp) := split_at_dot rest
  let fracp := maybe_fracp.getD []
  if intp.isEmpty ∧ fracp.isEmpty then .err .invalid
  else if ¬ (all_dec_digits intp ∧ all_dec_digits fracp) then .err .invalid
  else if (split_at_dot (fracp)).2.isSome then .err .invalid
  else
    let k := fracp.length
    let num := digits_value (intp ++ fracp) 0
    let rawAbs := round_half_even_div (num * 2 ^ 64) (10 ^ k)
    let raw : Int := if neg then -(rawAbs : Int) else (rawAbs : Int)
    if -(2 ^ 127) ≤ raw ∧ raw < 2 ^ 127 then .ok raw else .err .overflow

/-! ### `Number::from_str` (`src/gunnyscript/src/number.rs`, lines 71-119) -/

def parse_hex (s : List Char) : ERes ParseError Number :=
  match u64_from_str_radix 16 s with
  | .err e => .err (.InvalidHexNumber e)
  | .ok v => .ok (.Unsigned v)

def parse_signed (s : List Char) : ERes ParseError Number :=
  match i64_from_str s with
  | .err e => .err (.InvalidSignedNumber e)
  | .ok v => .ok (.Signed v)

def parse_unsigned (s : List Char) : ERes ParseError Number :=
  match u64_from_str_radix 10 s with
  | .err e => .err (.InvalidUnsignedNumber e)
  | .ok v => .ok (.Unsigned v)

def parse_fixed (s : List Char) : ERes ParseError Number :=
  match fixed_from_str s with
  | .err e => .err (.InvalidFixedPointNumber e)
  | .ok raw => .ok (.Fixed raw)

def parse_octal (s : List Char) : ERes ParseError Number :=
  match u64_from_str_radix 8 s with
  | .err e => .err (.InvalidOctalNumber e)
  | .ok v => .ok (.Unsigned v)

/-- `Number::from_str` over a character list: `0x` prefix → hex; else a
`.` anywhere → fixed point; else leading `-` → signed; else leading `0`
with more characters following → octal; else unsigned decimal. -/
def Number.from_str_chars (s : List Char) : ERes ParseError Number :=
  if s.take 2 = ['0', 'x'] then parse_hex (s.drop 2)
  else if s.contains '.' then parse_fixed s
  else if s.head? = some '-' then parse_signed s
  else if s.head? = some '0' ∧ 1 < s.length then parse_octal s
  else parse_unsigned s

/-- `Number::from_str` on a Rust `&str`. -/
def Number.from_str (s : String) : ERes ParseError Number :=
  Number.from_str_chars s.data

/-! ### UTF-8 width table (`src/gunnyscript/src/encoding.rs`, lines 134-152) -/

/-- The 256-entry `UTF8_CHAR_WIDTH` lookup table, row for row. -/
def UTF8_CHAR_WIDTH : List Nat :=
  [1, 1, 1, 1, 1, 1, 1, 1, 1, 1, 1, 1, 1, 1, 1, 1,
   1, 1, 1, 1, 1, 1, 1, 1, 1, 1, 1, 1, 1, 1, 1, 1,
   1, 1, 1, 1, 1, 1, 1, 1, 1, 1, 1, 1, 1, 1, 1, 1,
   1, 1, 1, 1, 1, 1, 1, 1, 1, 1, 1, 1, 1, 1, 1, 1,
   1, 1, 1, 1, 1, 1, 1, 1, 1, 1, 1, 1, 1, 1, 1, 1,
   1, 1, 1, 1, 1, 1, 1, 1, 1, 1, 1, 1, 1, 1, 1, 1,
   1, 1, 1, 1, 1, 1, 1, 1, 1, 1, 1, 1, 1, 1, 1, 1,
   1, 1, 1, 1, 1, 1, 1, 1, 1, 1, 1, 1, 1, 1, 1, 1,
   0, 0, 0, 0, 0, 0, 0, 0, 0, 0, 0, 0, 0, 0, 0, 0,
   0, 0, 0, 0, 0, 0, 0, 0, 0, 0, 0, 0, 0, 0, 0, 0,
   0, 0, 0, 0, 0, 0, 0, 0, 0, 0, 0, 0, 0, 0, 0, 0,
   0, 0, 0, 0, 0, 0, 0, 0, 0, 0, 0, 0, 0, 0, 0, 0,
   0, 0, 2, 2, 2, 2, 2, 2, 2, 2, 2, 2, 2, 2, 2, 2,
   2, 2, 2, 2, 2, 2, 2, 2, 2, 2, 2, 2, 2, 2, 2, 2,
   3, 3, 3, 3, 3, 3, 3, 3, 3, 3, 3, 3, 3, 3, 3, 3,
   4, 4, 4, 4, 4, 0, 0, 0, 0, 0, 0, 0, 0, 0, 0, 0]

/-- `UTF8_CHAR_WIDTH[b]`. -/
def utf8_char_width (b : Nat) : Nat :=
  UTF8_CHAR_WIDTH.getD b 0

/-! ### The iterator-based `Utf8Decoder`
(`src/gunnyscript/src/encoding.rs`, lines 35-130) -/

/-- Modelled from the spec: the `Located<E>` wrapper and `located_err`
constructor re-exported by `src/gunnyscript/src/lib.rs` are not present
under `src/`; per spec section 6, every failure carries a 1-based line
number, so `Located` pairs a line number with an error. -/
structure Located (ε : Type) where
  line : Nat
  err : ε
deriving DecidableEq, Repr

/-- Modelled from the spec: the `Error` enum used by the iterator-based
decoder (its `UnexpectedEof` and `IncompleteUtf8Char` cases appear in
`src/gunnyscript/src/encoding.rs`; the enum itself is not under `src/`). -/
inductive DecError
  | UnexpectedEof
  | IncompleteUtf8Char
deriving DecidableEq, Repr

/-- `Utf8Decoder` from `src/gunnyscript/src/encoding.rs`:
a byte slice with a cursor position, the slice length, and the current
line number (`START_LINE = 1`). -/
structure Utf8Decoder where
  src : List Nat
  pos : Nat
  len : Nat
  line : Nat
deriving DecidableEq, Repr

/-- `From<&str> for Utf8Decoder` (over the string's UTF-8 bytes). -/
def Utf8Decoder.of_bytes (src : List Nat) : Utf8Decoder :=
  { src := src, pos := 0, len := src.length, line := 1 }

/-- `Iterator::next for Utf8Decoder` (lines 54-74): `None` at end of
input; otherwise look up the lead byte's width, return
`UnexpectedEof` (without advancing) when `pos + ch_len >= len`, and
otherwise advance by the width, bump the line counter on a newline byte,
and return the character's byte slice `src[pos..pos + ch_len]`. -/
def Utf8Decoder.next (d : Utf8Decoder) :
    Option (ERes (Located DecError) (List Nat)) × Utf8Decoder :=
  if d.len ≤ d.pos then (none, d)
  else
    let b := d.src.getD d.pos 0
    let ch_len := utf8_char_width b
    if d.len ≤ d.pos + ch_len then (some (.err ⟨d.line, .UnexpectedEof⟩), d)
    else
      let d' := { d with
        pos := d.pos + ch_len,
        line := if ch_len = 1 ∧ b = 0x0A then d.line + 1 else d.line }
      (some (.ok ((d.src.drop d.pos).take ch_len)), d')

/-! ### Character decoding for the streaming parser

`src/gunnyscript/src/parser.rs` is generic over a
`Decoder` trait providing `decode_char`; `Parser::next` is used at
`Utf8Parser = Parser<Utf8Decoder>`. -/

def is_cont_byte (b : Nat) : Bool :=
  decide (0x80 ≤ b ∧ b < 0xC0)

def check_code_point (cp minv : Nat) : Option Char :=
  if minv ≤ cp ∧ (cp < 0xD800 ∨ (0xE000 ≤ cp ∧ cp < 0x110000)) then
    some (Char.ofNat cp)
  else none

/-- Decode one UTF-8 character from exactly the bytes of its width,
validating continuation bytes and rejecting overlong encodings and
surrogates. -/
def utf8_decode_bytes : List Nat → Option Char
  | [b] => if b < 0x80 then some (Char.ofNat b) else none
  | [b1, b2] =>
    if is_cont_byte b2 then
      check_code_point ((b1 - 0xC0) * 0x40 + (b2 - 0x80)) 0x80
    else none
  | [b1, b2, b3] =>
    if is_cont_byte b2 ∧ is_cont_byte b3 then
      check_code_point ((b1 - 0xE0) * 0x1000 + (b2 - 0x80) * 0x40 + (b3 - 0x80)) 0x800
    else none
  | [b1, b2, b3, b4] =>
    if is_cont_byte b2 ∧ is_cont_byte b3 ∧ is_cont_byte b4 then
      check_code_point
        ((b1 - 0xF0) * 0x40000 + (b2 - 0x80) * 0x1000 + (b3 - 0x80) * 0x40 + (b4 - 0x80))
        0x10000
    else none
  | _ => none

/-- A byte buffer (`bytes::Buf`), consumed from the front. -/
abbrev Buf := List Nat

/-- Modelled from the spec: the `Decoder::decode_char` implementation the
parser instantiates is not under `src/` (the `encoding.rs` present there
holds a different iteration of the decoder with an incompatible trait).
Per spec section 4.1 it decodes the next code point and consumes its
bytes, signals "incomplete" (`Ok(None)`) when fewer bytes remain than the
width implied by the lead byte — leaving the buffer untouched so the
caller can retry — and fails with `InvalidUtf8` on an invalid lead byte
or malformed sequence.  The width comes from the `UTF8_CHAR_WIDTH`
table. -/
def decode_char (buf : Buf) : ERes ParseError (Option (Char × Buf)) :=
  match buf with
  | [] => .ok none
  | b :: _ =>
    let w := utf8_char_width b
    if w = 0 then .err .InvalidUtf8
    else if buf.length < w then .ok none
    else
      match utf8_decode_bytes (buf.take w) with
      | some c => .ok (some (c, buf.drop w))
      | none => .err .InvalidUtf8

/-! ### The event lexer (`src/gunnyscript/src/parser.rs`) -/

/-- `Location` (lines 14-43): 1-based line and column plus a byte count
(the byte count is never updated by this parser). -/
structure Location where
  line : Nat
  column : Nat
  bytes : Nat
deriving DecidableEq, Repr

/-- `Location::default()`. -/
def Location.init : Location := ⟨1, 1, 0⟩

def Location.next_line (l : Location) : Location :=
  { l with line := l.line + 1, column := 1 }

def Location.next_column (l : Location) : Location :=
  { l with column := l.column + 1 }

/-- `ComplexValue` (lines 72-76). -/
inductive ComplexValue
  | Array
  | Object
deriving DecidableEq, Repr

/-- Lexer `State` (lines 78-90). -/
inductive State
  | ExpectingValue
  | ExpectingPropertyName
deriving DecidableEq, Repr

/-- `SimpleValue` (lines 62-70). -/
inductive SimpleValue
  | Null
  | Boolean (b : Bool)
  | String (s : String)
  | Number (n : Number)
  | Date (d : GDate)
  | DateTime (dt : GDateTime)
deriving DecidableEq, Repr

/-- `Event` (lines 52-60). -/
inductive Event
  | Linespace
  | DocCommentLine (s : String)
  | SimpleValue (v : SimpleValue)
  | Start (cv : ComplexValue)
  | PropertyName (s : String)
  | End (cv : ComplexValue)
deriving DecidableEq, Repr

/-- `LocatedParseError` (`src/gunnyscript/src/error.rs`, lines 18-41). -/
structure LocatedParseError where
  line : Nat
  column : Nat
  err : ParseError
deriving DecidableEq, Repr

/-- "Error or incomplete" (lines 45-50). -/
inductive EoI
  | error (e : LocatedParseError)
  | incomplete
deriving DecidableEq, Repr

/-- The mutable state of `Parser<D>` (lines 94-104).  The nesting stack
is a list whose head is the innermost open complex value
(`Vec::last` in Rust). -/
structure Parser where
  state : State
  location : Location
  buf_location : Location
  maybe_peek : Option Char
  newline_count : Nat
  nesting : List ComplexValue
  just_parsed_doc_comment : Bool
deriving DecidableEq, Repr

/-- `Parser::default()`. -/
def Parser.init : Parser :=
  { state := .ExpectingValue
    location := .init
    buf_location := .init
    maybe_peek := none
    newline_count := 0
    nesting := []
    just_parsed_doc_comment := false }

/-- Outcome of one parsing step: the Rust methods mutate `self` and the
buffer and return `Result<α, EoI>`; here the (possibly mutated) parser
and remaining buffer are returned in both outcomes.  `fuelOut` is the
embedding's fuel-exhaustion marker. -/
inductive PRes (α : Type)
  | ok (a : α) (p : Parser) (buf : Buf)
  | fail (e : EoI) (p : Parser) (buf : Buf)
  | fuelOut
deriving DecidableEq, Repr

/-- `err_in_buf` (lines 112-119): an error at the working position. -/
def Parser.err_in_buf (p : Parser) (e : ParseError) : EoI :=
  .error ⟨p.buf_location.line, p.buf_location.column, e⟩

/-- `err_at_buf` (lines 121-129): an error at the committed position. -/
def Parser.err_at_buf (p : Parser) (e : ParseError) : EoI :=
  .error ⟨p.location.line, p.location.column, e⟩

/-- `Parser::next_char` (lines 131-146): take the pushed-back character
if any (without touching the location), otherwise decode one character
and advance the working location (newline starts a new line, carriage
return is ignored, anything else advances the column). -/
def Parser.next_char (p : Parser) (buf : Buf) : PRes Char :=
  match p.maybe_peek with
  | some ch => .ok ch { p with maybe_peek := none } buf
  | none =>
    match decode_char buf with
    | .err e => .fail (p.err_in_buf e) p buf
    | .ok none => .fail .incomplete p buf
    | .ok (some (ch, buf')) =>
      if ch = '\n' then
        .ok ch { p with buf_location := p.buf_location.next_line } buf'
      else if ch = '\r' then .ok ch p buf'
      else .ok ch { p with buf_location := p.buf_location.next_column } buf'

/-- `consume_until_not` (lines 234-247): consume characters while they
match; push the first non-matching character back; incomplete when the
buffer runs dry. -/
def Parser.consume_until_not : Nat → Parser → Buf → List Char → PRes Unit
  | 0, _, _, _ => .fuelOut
  | fuel + 1, p, buf, keep_matching =>
    if buf.isEmpty then .fail .incomplete p buf
    else
      match p.next_char buf with
      | .fuelOut => .fuelOut
      | .fail e q b => .fail e q b
      | .ok ch q b =>
        if keep_matching.contains ch then Parser.consume_until_not fuel q b keep_matching
        else .ok () { q with maybe_peek := some ch } b

/-- `skip_whitespace` (lines 249-251). -/
def Parser.skip_whitespace (fuel : Nat) (p : Parser) (buf : Buf) : PRes Unit :=
  Parser.consume_until_not fuel p buf [' ', '\t', '\r']

/-- `start_object` (lines 253-257). -/
def Parser.start_object (p : Parser) : Event × Parser :=
  (.Start .Object,
   { p with nesting := .Object :: p.nesting, state := .ExpectingPropertyName })

/-- `start_array` (lines 259-262). -/
def Parser.start_array (p : Parser) : Event × Parser :=
  (.Start .Array, { p with nesting := .Array :: p.nesting })

/-- `end_complex_value` (lines 264-275): emit `End cv` and pop iff the
top of the nesting stack is `cv`; otherwise `UnexpectedChar`. -/
def Parser.end_complex_value (p : Parser) (ch : Char) (cv : ComplexValue) :
    ERes EoI (Event × Parser) :=
  match p.nesting with
  | [] => .err (p.err_in_buf (.UnexpectedChar ch))
  | top :: rest =>
    if top = cv then .ok (.End cv, { p with nesting := rest })
    else .err (p.err_in_buf (.UnexpectedChar ch))

def is_ascii_alpha (c : Char) : Bool :=
  decide (('a' ≤ c ∧ c ≤ 'z') ∨ ('A' ≤ c ∧ c ≤ 'Z'))

def is_ascii_digit (c : Char) : Bool :=
  decide ('0' ≤ c ∧ c ≤ '9')

/-- Loop of `parse_non_string_simple_value` (lines 277-316): accumulate
simple-value characters until whitespace, a separator comma (inside a
complex value), a pushed-back newline, or end of buffer (which is fine
at top level but incomplete inside a complex value). -/
def Parser.pnssv_go : Nat → Parser → String → Buf → PRes String
  | 0, _, _, _ => .fuelOut
  | fuel + 1, p, s, buf =>
    if buf.isEmpty then
      if p.nesting.isEmpty then .ok s p buf else .fail .incomplete p buf
    else
      match p.next_char buf with
      | .fuelOut => .fuelOut
      | .fail e q b => .fail e q b
      | .ok ch q b =>
        if ch = ' ' ∨ ch = '\t' ∨ ch = '\r' then .ok s q b
        else if ch = ',' then
          if q.nesting.isEmpty then .fail (q.err_in_buf (.UnexpectedChar ch)) q b
          else .ok s q b
        else if ch = '\n' then .ok s { q with maybe_peek := some ch } b
        else if is_ascii_digit ch ∨ is_ascii_alpha ch ∨ ch = '-' ∨ ch = ':' ∨ ch = '.' then
          Parser.pnssv_go fuel q (s.push ch) b
        else .fail (q.err_in_buf (.UnexpectedChar ch)) q b

def Parser.parse_non_string_simple_value (fuel : Nat) (p : Parser) (first_char : Char)
    (buf : Buf) : PRes String :=
  Parser.pnssv_go fuel p (String.singleton first_char) buf

/-- Modelled from the spec: RFC3339 date-time parsing performed by the
external `time` crate (`OffsetDateTime::parse(s, &Rfc3339)`), spec
section 4.4: strict `YYYY-MM-DDThh:mm:ss[.frac](Z|±hh:mm)`; any
deviation is `InvalidDateTime`. -/
def parse_date_time (s : List Char) : ERes ParseError GDateTime :=
  match s with
  | y1 :: y2 :: y3 :: y4 :: '-' :: m1 :: m2 :: '-' :: d1 :: d2 :: 'T' ::
      h1 :: h2 :: ':' :: mi1 :: mi2 :: ':' :: s1 :: s2 :: rest =>
    if all_dec_digits [y1, y2, y3, y4, m1, m2, d1, d2, h1, h2, mi1, mi2, s1, s2] then
      let year := digits_value [y1, y2, y3, y4] 0
      let month := digits_value [m1, m2] 0
      let day := digits_value [d1, d2] 0
      let hour := digits_value [h1, h2] 0
      let minute := digits_value [mi1, mi2] 0
      let second := digits_value [s1, s2] 0
      -- fractional seconds: an optional '.' followed by at least one digit
      let (frac, frac_ok, offset_part) :=
        match rest with
        | '.' :: more =>
          let frac := more.takeWhile is_ascii_digit
          (frac, !frac.isEmpty, more.drop frac.length)
        | _ => (([] : List Char), true, rest)
      if frac_ok then
        let nano := digits_value frac 0 * 10 ^ (9 - frac.length)
        let offset : Option Int :=
          match offset_part with
          | ['Z'] => some 0
          | [sgn, o1, o2, ':', o3, o4] =>
            if (sgn = '+' ∨ sgn = '-') ∧ all_dec_digits [o1, o2, o3, o4] then
              let mins := digits_value [o1, o2] 0 * 60 + digits_value [o3, o4] 0
              some (if sgn = '-' then -(mins : Int) else (mins : Int))
            else none
          | _ => none
        match offset with
        | none => .err .InvalidDateTime
        | some off =>
          if 1 ≤ month ∧ month ≤ 12 ∧ 1 ≤ day ∧ day ≤ 31 ∧ hour < 24 ∧ minute < 60 ∧
              second < 60 ∧ frac.length ≤ 9 then
            .ok ⟨⟨(year : Int), month, day⟩, hour, minute, second, nano, off⟩
          else .err .InvalidDateTime
      else .err .InvalidDateTime
    else .err .InvalidDateTime
  | _ => .err .InvalidDateTime

/-- `u8::from_str` for the month/day fields (base 10, bound 255). -/
def u8_from_str (s : List Char) : ERes IntErrKind Nat :=
  match s with
  | [] => .err .empty
  | ['+'] => .err .invalidDigit
  | '+' :: rest =>
    match u64_digits_loop 10 rest 0 with
    | .err e => .err e
    | .ok v => if v < 256 then .ok v else .err .posOverflow
  | _ =>
    match u64_digits_loop 10 s 0 with
    | .err e => .err e
    | .ok v => if v < 256 then .ok v else .err .posOverflow

/-- `i32::from_str` for the year field. -/
def i32_from_str (s : List Char) : ERes IntErrKind Int :=
  match i64_from_str s with
  | .err e => .err e
  | .ok v =>
    if v < -(2 ^ 31) then .err .negOverflow
    else if (2 ^ 31 - 1) < v then .err .posOverflow
    else .ok v

def is_leap_year (y : Int) : Bool :=
  y % 4 = 0 ∧ (y % 100 ≠ 0 ∨ y % 400 = 0)

def days_in_month (y : Int) (m : Nat) : Nat :=
  if m = 2 then (if is_leap_year y then 29 else 28)
  else if m = 4 ∨ m = 6 ∨ m = 9 ∨ m = 11 then 30
  else 31

/-- Split a character list on a separator character (`str::split`). -/
def split_on_char (sep : Char) : List Char → List (List Char)
  | [] => [[]]
  | c :: rest =>
    let groups := split_on_char sep rest
    if c = sep then [] :: groups
    else
      match groups with
      | g :: gs => (c :: g) :: gs
      | [] => [[c]]

/-- `parse_date` (lines 534-559): split on `-` into year, month and day
fields; each missing field is its own error; month/day are stripped of
leading zeros and parsed as `u8`; `Month::try_from` and
`Date::from_calendar_date` validate the calendar (year range ±9999 as in
the `time` crate's default; day range per month and leap year). -/
def parse_date (s : List Char) : ERes ParseError GDate :=
  let ymd := split_on_char '-' s
  match ymd.head? with
  | none => .err .MissingYearInDate
  | some ys =>
    match i32_from_str ys with
    | .err e => .err (.InvalidDateYear e)
    | .ok year =>
      match (ymd.drop 1).head? with
      | none => .err .MissingMonthInDate
      | some ms =>
        match u8_from_str (ms.dropWhile (· = '0')) with
        | .err e => .err (.InvalidDateMonth e)
        | .ok month =>
          match (ymd.drop 2).head? with
          | none => .err .MissingDayInDate
          | some ds =>
            match u8_from_str (ds.dropWhile (· = '0')) with
            | .err e => .err (.InvalidDateDay e)
            | .ok day =>
              if 1 ≤ month ∧ month ≤ 12 then
                if 1 ≤ day ∧ day ≤ days_in_month year month ∧
                    -9999 ≤ year ∧ year ≤ 9999 then
                  .ok ⟨year, month, day⟩
                else .err .InvalidDate
              else .err .InvalidDate

/-- `parse_number` (lines 341-345). -/
def Parser.parse_number (fuel : Nat) (p : Parser) (first_char : Char) (buf : Buf) :
    PRes Event :=
  match p.parse_non_string_simple_value fuel first_char buf with
  | .fuelOut => .fuelOut
  | .fail e q b => .fail e q b
  | .ok value q b =>
    match Number.from_str_chars value.data with
    | .err e => .fail (q.err_at_buf e) q b
    | .ok n => .ok (.SimpleValue (.Number n)) q b

/-- `parse_number_or_date` (lines 318-339): `-`/`+` go straight to the
number parser; otherwise scan a simple value and classify it — a `:`
makes it a date-time, a `-` a date, anything else a number. -/
def Parser.parse_number_or_date (fuel : Nat) (p : Parser) (first_char : Char) (buf : Buf) :
    PRes Event :=
  if first_char = '-' ∨ first_char = '+' then p.parse_number fuel first_char buf
  else
    match p.parse_non_string_simple_value fuel first_char buf with
    | .fuelOut => .fuelOut
    | .fail e q b => .fail e q b
    | .ok value q b =>
      if value.data.contains ':' then
        match parse_date_time value.data with
        | .err e => .fail (q.err_at_buf e) q b
        | .ok dt => .ok (.SimpleValue (.DateTime dt)) q b
      else if value.data.contains '-' then
        match parse_date value.data with
        | .err e => .fail (q.err_at_buf e) q b
        | .ok d => .ok (.SimpleValue (.Date d)) q b
      else
        match Number.from_str_chars value.data with
        | .err e => .fail (q.err_at_buf e) q b
        | .ok n => .ok (.SimpleValue (.Number n)) q b

/-- `parse_bool` (lines 347-354). -/
def Parser.parse_bool (fuel : Nat) (p : Parser) (first_char : Char) (buf : Buf) :
    PRes Event :=
  match p.parse_non_string_simple_value fuel first_char buf with
  | .fuelOut => .fuelOut
  | .fail e q b => .fail e q b
  | .ok value q b =>
    if value = "true" then .ok (.SimpleValue (.Boolean true)) q b
    else if value = "false" then .ok (.SimpleValue (.Boolean false)) q b
    else .fail (q.err_at_buf (.InvalidIdentifier value)) q b

/-- `parse_null` (lines 356-362). -/
def Parser.parse_null (fuel : Nat) (p : Parser) (first_char : Char) (buf : Buf) :
    PRes Event :=
  match p.parse_non_string_simple_value fuel first_char buf with
  | .fuelOut => .fuelOut
  | .fail e q b => .fail e q b
  | .ok value q b =>
    if value = "null" then .ok (.SimpleValue .Null) q b
    else .fail (q.err_at_buf (.InvalidIdentifier value)) q b

/-- `parse_escape_seq` (lines 381-394). -/
def Parser.parse_escape_seq (p : Parser) (buf : Buf) : PRes Char :=
  match p.next_char buf with
  | .fuelOut => .fuelOut
  | .fail e q b => .fail e q b
  | .ok escape_type q b =>
    if escape_type = '"' then .ok '"' q b
    else if escape_type = '\'' then .ok '\'' q b
    else if escape_type = 'n' then .ok '\n' q b
    else if escape_type = 'r' then .ok '\r' q b
    else if escape_type = 't' then .ok '\t' q b
    else if escape_type = '\\' then .ok '\\' q b
    else if escape_type = '0' then .ok (Char.ofNat 0) q b
    else .fail (q.err_in_buf (.InvalidEscapeSequence escape_type)) q b

/-- Loop of `parse_string` (lines 364-379): accumulate characters up to
the closing quote, translating escape sequences; incomplete at end of
buffer. -/
def Parser.parse_string_go : Nat → Parser → String → Buf → PRes Event
  | 0, _, _, _ => .fuelOut
  | fuel + 1, p, value, buf =>
    if buf.isEmpty then .fail .incomplete p buf
    else
      match p.next_char buf with
      | .fuelOut => .fuelOut
      | .fail e q b => .fail e q b
      | .ok ch q b =>
        if ch = '\\' then
          match q.parse_escape_seq b with
          | .fuelOut => .fuelOut
          | .fail e q2 b2 => .fail e q2 b2
          | .ok c q2 b2 => Parser.parse_string_go fuel q2 (value.push c) b2
        else if ch = '"' then .ok (.SimpleValue (.String value)) q b
        else Parser.parse_string_go fuel q (value.push ch) b

def Parser.parse_string (fuel : Nat) (p : Parser) (buf : Buf) : PRes Event :=
  Parser.parse_string_go fuel p "" buf

/-- Loop of `parse_string_literal` (lines 396-422): before the opening
quote, count `#` fence characters; inside the string, accumulate until
the closing `"` followed by the same fence. -/
def Parser.parse_string_lit_go : Nat → Parser → Bool → String → String → Buf → PRes Event
  | 0, _, _, _, _, _ => .fuelOut
  | fuel + 1, p, in_string, value, closing_tag, buf =>
    if buf.isEmpty then .fail .incomplete p buf
    else
      match p.next_char buf with
      | .fuelOut => .fuelOut
      | .fail e q b => .fail e q b
      | .ok ch q b =>
        if in_string then
          let value' := value.push ch
          if value'.endsWith closing_tag then
            .ok (.SimpleValue (.String (value'.dropRight closing_tag.length))) q b
          else Parser.parse_string_lit_go fuel q true value' closing_tag b
        else
          if ch = '#' then
            Parser.parse_string_lit_go fuel q false value (closing_tag.push '#') b
          else if ch = '"' then
            Parser.parse_string_lit_go fuel q true value closing_tag b
          else .fail (q.err_in_buf (.InvalidLiteralStringChar ch)) q b

def Parser.parse_string_literal (fuel : Nat) (p : Parser) (buf : Buf) : PRes Event :=
  Parser.parse_string_lit_go fuel p false "" "\"#" buf

/-- Loop of `parse_doc_comment_line` (lines 445-458): accumulate through
the newline (included), pushing the newline back for blank-line
counting. -/
def Parser.parse_doc_comment_go : Nat → Parser → String → Buf → PRes Event
  | 0, _, _, _ => .fuelOut
  | fuel + 1, p, value, buf =>
    if buf.isEmpty then .fail .incomplete p buf
    else
      match p.next_char buf with
      | .fuelOut => .fuelOut
      | .fail e q b => .fail e q b
      | .ok ch q b =>
        let value' := value.push ch
        if ch = '\n' then .ok (.DocCommentLine value') { q with maybe_peek := some ch } b
        else Parser.parse_doc_comment_go fuel q value' b

def Parser.parse_doc_comment_line (fuel : Nat) (p : Parser) (buf : Buf) : PRes Event :=
  Parser.parse_doc_comment_go fuel p "" buf

/-- Loop of `parse_single_line_comment` (lines 460-477). -/
def Parser.parse_single_line_go : Nat → Parser → Buf → PRes (Option Event)
  | 0, _, _ => .fuelOut
  | fuel + 1, p, buf =>
    if buf.isEmpty then .fail .incomplete p buf
    else
      match p.next_char buf with
      | .fuelOut => .fuelOut
      | .fail e q b => .fail e q b
      | .ok ch q b =>
        if ch = '\n' then .ok none { q with maybe_peek := some ch } b
        else Parser.parse_single_line_go fuel q b

def Parser.parse_single_line_comment (fuel : Nat) (p : Parser) (first_char : Char)
    (buf : Buf) : PRes (Option Event) :=
  if first_char = '\n' then .ok none p buf
  else Parser.parse_single_line_go fuel p buf

/-- Loop of `parse_multiline_comment` (lines 479-491), carrying the
previous character of the two-character lookahead window. -/
def Parser.parse_multiline_go : Nat → Parser → Char → Buf → PRes (Option Event)
  | 0, _, _, _ => .fuelOut
  | fuel + 1, p, prev, buf =>
    if buf.isEmpty then .fail .incomplete p buf
    else
      match p.next_char buf with
      | .fuelOut => .fuelOut
      | .fail e q b => .fail e q b
      | .ok ch q b =>
        if prev = '*' ∧ ch = '/' then .ok none q b
        else Parser.parse_multiline_go fuel q ch b

def Parser.parse_multiline_comment (fuel : Nat) (p : Parser) (buf : Buf) :
    PRes (Option Event) :=
  Parser.parse_multiline_go fuel p (Char.ofNat 0) buf

/-- `parse_pre_value_comment` (lines 424-443): `//` is a line comment,
`///` a doc comment (only legal at the root), `/*` a multi-line comment;
anything else after the `/` is `InvalidCommentDelimiter`. -/
def Parser.parse_pre_value_comment (fuel : Nat) (p : Parser) (buf : Buf) :
    PRes (Option Event) :=
  match p.next_char buf with
  | .fuelOut => .fuelOut
  | .fail e q b => .fail e q b
  | .ok ch1 q b =>
    if ch1 = '/' then
      match q.next_char b with
      | .fuelOut => .fuelOut
      | .fail e q2 b2 => .fail e q2 b2
      | .ok ch2 q2 b2 =>
        if ch2 = '/' then
          if q2.nesting.isEmpty then
            match q2.parse_doc_comment_line fuel b2 with
            | .fuelOut => .fuelOut
            | .fail e q3 b3 => .fail e q3 b3
            | .ok ev q3 b3 => .ok (some ev) q3 b3
          else .fail (q2.err_at_buf .UnexpectedDocComment) q2 b2
        else q2.parse_single_line_comment fuel ch2 b2
    else if ch1 = '*' then q.parse_multiline_comment fuel b
    else .fail (q.err_in_buf (.InvalidCommentDelimiter ch1)) q b

/-- `parse_pre_propname_comment` (lines 493-506): like the pre-value
variant but doc comments are always parsed. -/
def Parser.parse_pre_propname_comment (fuel : Nat) (p : Parser) (buf : Buf) :
    PRes (Option Event) :=
  match p.next_char buf with
  | .fuelOut => .fuelOut
  | .fail e q b => .fail e q b
  | .ok ch1 q b =>
    if ch1 = '/' then
      match q.next_char b with
      | .fuelOut => .fuelOut
      | .fail e q2 b2 => .fail e q2 b2
      | .ok ch2 q2 b2 =>
        if ch2 = '/' then
          match q2.parse_doc_comment_line fuel b2 with
          | .fuelOut => .fuelOut
          | .fail e q3 b3 => .fail e q3 b3
          | .ok ev q3 b3 => .ok (some ev) q3 b3
        else q2.parse_single_line_comment fuel ch2 b2
    else if ch1 = '*' then q.parse_multiline_comment fuel b
    else .fail (q.err_in_buf (.InvalidCommentDelimiter ch1)) q b

/-- Loop of `parse_property_name` (lines 508-526): ASCII letters, digits,
`-` and `_` extend the name; space or tab ends it; anything else is
`UnexpectedChar`. -/
def Parser.parse_property_name_go : Nat → Parser → String → Buf → PRes Event
  | 0, _, _, _ => .fuelOut
  | fuel + 1, p, name, buf =>
    if buf.isEmpty then .fail .incomplete p buf
    else
      match p.next_char buf with
      | .fuelOut => .fuelOut
      | .fail e q b => .fail e q b
      | .ok ch q b =>
        if is_ascii_alpha ch ∨ is_ascii_digit ch ∨ ch = '-' ∨ ch = '_' then
          Parser.parse_property_name_go fuel q (name.push ch) b
        else if ch = ' ' ∨ ch = '\t' then .ok (.PropertyName name) q b
        else .fail (q.err_in_buf (.UnexpectedChar ch)) q b

def Parser.parse_property_name (fuel : Nat) (p : Parser) (first_char : Char) (buf : Buf) :
    PRes Event :=
  Parser.parse_property_name_go fuel p (String.singleton first_char) buf

/-- The newline-counting loop at the head of `Parser::next`
(lines 156-169): count consecutive newlines, emitting `Linespace` at the
second one (or `DanglingDocComment` if a doc comment is pending);
a non-newline character falls through. -/
def Parser.newline_loop : Nat → Parser → Char → Buf → PRes (Event ⊕ Char)
  | fuel, p, ch, buf =>
    if ch = '\n' then
      let p := { p with newline_count := p.newline_count + 1 }
      if p.newline_count = 2 then
        if p.just_parsed_doc_comment then .fail (p.err_in_buf .DanglingDocComment) p buf
        else .ok (.inl .Linespace) p buf
      else
        match fuel with
        | 0 => .fuelOut
        | fuel + 1 =>
          match p.skip_whitespace fuel buf with
          | .fuelOut => .fuelOut
          | .fail e q b => .fail e q b
          | .ok _ q b =>
            match q.next_char b with
            | .fuelOut => .fuelOut
            | .fail e q2 b2 => .fail e q2 b2
            | .ok ch2 q2 b2 => Parser.newline_loop fuel q2 ch2 b2
    else .ok (.inr ch) p buf

/-- The per-state dispatch of `Parser::next` (lines 172-203). -/
def Parser.dispatch (fuel : Nat) (p : Parser) (ch : Char) (buf : Buf) :
    PRes (Option Event) :=
  match p.state with
  | .ExpectingValue =>
    if ch = '{' then
      let (ev, q) := p.start_object
      .ok (some ev) q buf
    else if ch = '[' then
      let (ev, q) := p.start_array
      .ok (some ev) q buf
    else if ch = ']' then
      match p.end_complex_value ch .Array with
      | .ok (ev, q) => .ok (some ev) q buf
      | .err e => .fail e p buf
    else if ch = '-' ∨ is_ascii_digit ch then
      match p.parse_number_or_date fuel ch buf with
      | .fuelOut => .fuelOut
      | .fail e q b => .fail e q b
      | .ok ev q b => .ok (some ev) q b
    else if ch = 't' ∨ ch = 'f' then
      match p.parse_bool fuel ch buf with
      | .fuelOut => .fuelOut
      | .fail e q b => .fail e q b
      | .ok ev q b => .ok (some ev) q b
    else if ch = 'n' then
      match p.parse_null fuel ch buf with
      | .fuelOut => .fuelOut
      | .fail e q b => .fail e q b
      | .ok ev q b => .ok (some ev) q b
    else if ch = '#' then
      match p.parse_string_literal fuel buf with
      | .fuelOut => .fuelOut
      | .fail e q b => .fail e q b
      | .ok ev q b => .ok (some ev) q b
    else if ch = '"' then
      match p.parse_string fuel buf with
      | .fuelOut => .fuelOut
      | .fail e q b => .fail e q b
      | .ok ev q b => .ok (some ev) q b
    else if ch = '/' then p.parse_pre_value_comment fuel buf
    else if ch = ',' then
      if p.nesting.isEmpty then .fail (p.err_in_buf (.UnexpectedChar ch)) p buf
      else .ok none p buf
    else .fail (p.err_in_buf (.UnexpectedChar ch)) p buf
  | .ExpectingPropertyName =>
    if ch = '}' then
      match p.end_complex_value ch .Object with
      | .ok (ev, q) => .ok (some ev) q buf
      | .err e => .fail e p buf
    else if is_ascii_alpha ch then
      match p.parse_property_name fuel ch buf with
      | .fuelOut => .fuelOut
      | .fail e q b => .fail e q b
      | .ok ev q b => .ok (some ev) { q with state := .ExpectingValue } b
    else if ch = '/' then p.parse_pre_propname_comment fuel buf
    else if ch = ',' then .ok none p buf
    else .fail (p.err_in_buf (.InvalidPropertyNameChar ch)) p buf

/-- The post-processing of a parsed optional token (lines 205-225):
after a simple value or a closing bracket inside an object, expect a
property name next; remember whether a doc-comment line was just parsed;
commit the working position. -/
def Parser.apply_post (p : Parser) (maybe_ev : Option Event) : Parser :=
  let p1 :=
    match maybe_ev with
    | some (.SimpleValue _) | some (.End _) =>
      let p' :=
        if p.nesting.head? = some ComplexValue.Object then
          { p with state := .ExpectingPropertyName }
        else p
      { p' with just_parsed_doc_comment := false }
    | some (.DocCommentLine _) => { p with just_parsed_doc_comment := true }
    | _ => { p with just_parsed_doc_comment := false }
  { p1 with location := p1.buf_location }

/-- Outcome of one iteration of the `while maybe_ev.is_none()` loop in
`Parser::next`: an event (returned to the caller), a silently consumed
token (`cont`, loop again), or an error/incomplete. -/
inductive IterOut
  | event (ev : Event) (p : Parser) (buf : Buf)
  | cont (p : Parser) (buf : Buf)
  | fail (e : EoI) (p : Parser) (buf : Buf)
  | fuelOut
deriving DecidableEq, Repr

/-- One iteration of the loop in `Parser::next` (lines 151-226):
reset the working position to the committed one, skip whitespace, read a
character, run the newline/linespace loop, dispatch on the lexer state,
then post-process.  A `Linespace` event is returned directly, skipping
the post-processing (mirroring the early `return` at line 165). -/
def Parser.next_iter (fuel : Nat) (p0 : Parser) (buf0 : Buf) : IterOut :=
  let p := { p0 with buf_location := p0.location }
  match p.skip_whitespace fuel buf0 with
  | .fuelOut => .fuelOut
  | .fail e q b => .fail e q b
  | .ok _ q b =>
    match q.next_char b with
    | .fuelOut => .fuelOut
    | .fail e q2 b2 => .fail e q2 b2
    | .ok ch q2 b2 =>
      match q2.newline_loop fuel ch b2 with
      | .fuelOut => .fuelOut
      | .fail e q3 b3 => .fail e q3 b3
      | .ok (.inl ev) q3 b3 => .event ev q3 b3
      | .ok (.inr ch2) q3 b3 =>
        let q4 := { q3 with newline_count := 0 }
        match q4.dispatch fuel ch2 b3 with
        | .fuelOut => .fuelOut
        | .fail e q5 b5 => .fail e q5 b5
        | .ok maybe_ev q5 b5 =>
          let q6 := q5.apply_post maybe_ev
          match maybe_ev with
          | some ev => .event ev q6 b5
          | none => .cont q6 b5

/-- Result of a whole `Parser::next` call. -/
inductive NextOut
  | ok (ev : Event) (p : Parser) (buf : Buf)
  | fail (e : EoI) (p : Parser) (buf : Buf)
  | fuelOut
deriving DecidableEq, Repr

/-- `Parser::next` (lines 148-228): iterate `next_iter` until an event
or an error/incomplete. -/
def Parser.next : Nat → Parser → Buf → NextOut
  | 0, _, _ => .fuelOut
  | fuel + 1, p, buf =>
    match p.next_iter fuel buf with
    | .fuelOut => .fuelOut
    | .fail e q b => .fail e q b
    | .event ev q b => .ok ev q b
    | .cont q b => Parser.next fuel q b

/-- Repeatedly call `Parser::next`, collecting the produced events until
an error or incomplete (`some e`) or fuel exhaustion (`none`). -/
def Parser.lex_all : Nat → Nat → Parser → Buf → List Event × Option EoI
  | 0, _, _, _ => ([], none)
  | outer + 1, fuel, p, buf =>
    match Parser.next fuel p buf with
    | .fuelOut => ([], none)
    | .fail e _ _ => ([], some e)
    | .ok ev q b =>
      let (evs, r) := Parser.lex_all outer fuel q b
      (ev :: evs, r)

/-- UTF-8 bytes of a character. -/
def char_utf8 (c : Char) : List Nat :=
  let n := c.toNat
  if n < 0x80 then [n]
  else if n < 0x800 then [0xC0 + n / 0x40, 0x80 + n % 0x40]
  else if n < 0x10000 then
    [0xE0 + n / 0x1000, 0x80 + (n / 0x40) % 0x40, 0x80 + n % 0x40]
  else
    [0xF0 + n / 0x40000, 0x80 + (n / 0x1000) % 0x40, 0x80 + (n / 0x40) % 0x40,
     0x80 + n % 0x40]

/-- UTF-8 bytes of a string, as fed to the parser. -/
def str_bytes (s : String) : Buf :=
  (s.data.map char_utf8).foldr (· ++ ·) []

/-! ### The document builder (`src/gunnyscript/src/value.rs`)

`DocValue::from_parser`, `parse_array` and `parse_object` pull events
one at a time from an `IterableParser`, whose `Iterator::next` yields
`Some(Ok(event))` per successful parser event and `None` on incomplete.
The iterator is embedded as the list of events it yields; exhausting the
list models `None`, which the builder turns into `Error::UnexpectedEof`.
The builder's `BTreeMap<String, DocValue>` is embedded as its
key-sorted association list. -/

/-- `Error` from `src/gunnyscript/src/error.rs` (builder-level; the
located variant is produced only by the parser). -/
inductive GError
  | Parse (e : ParseError)
  | UnexpectedEof
deriving DecidableEq, Repr

mutual
/-- `Value` (lines 15-26 of `value.rs`). -/
inductive Value
  | Null
  | Boolean (b : Bool)
  | Number (n : Number)
  | String (s : String)
  | Date (d : GDate)
  | DateTime (dt : GDateTime)
  | Array (vs : List Value)
  | Object (m : List (String × DocValue))

/-- `DocValue` (line 49 of `value.rs`): an optional doc comment paired
with a value. -/
inductive DocValue
  | mk (doc : Option String) (value : Value)
end

/-- `From<SimpleValue> for Value` (lines 34-45 of `value.rs`). -/
def value_of_simple : SimpleValue → Value
  | .Null => .Null
  | .Boolean b => .Boolean b
  | .String s => .String s
  | .Number n => .Number n
  | .Date d => .Date d
  | .DateTime dt => .DateTime dt

/-- `BTreeMap::contains_key`. -/
def contains_key (m : List (String × DocValue)) (k : String) : Bool :=
  m.any fun e => e.1 = k

/-- `BTreeMap::insert` on a key-sorted association list (the key is
known not to be present). -/
def insert_sorted (m : List (String × DocValue)) (k : String) (v : DocValue) :
    List (String × DocValue) :=
  match m with
  | [] => [(k, v)]
  | (k', v') :: rest =>
    if k < k' then (k, v) :: (k', v') :: rest
    else (k', v') :: insert_sorted rest k v

/-- Result of a builder step: a value plus the events not yet consumed,
an error, or fuel exhaustion. -/
inductive BRes (α : Type)
  | ok (a : α) (rest : List Event)
  | err (e : GError)
  | fuelOut

mutual
/-- Loop of `DocValue::parse_object` (lines 115-146 of `value.rs`),
carrying the accumulated map, the pending property name and the pending
doc-comment lines.  Note the `match` has no arm for `Start` events:
a nested array or object after a property name falls to the catch-all
`UnexpectedItem` arm. -/
def DocValue.parse_object_go : Nat → List (String × DocValue) → Option String →
    List String → List Event → BRes Value
  | 0, _, _, _, _ => .fuelOut
  | fuel + 1, map, maybe_prop_name, prop_dc, events =>
    match events with
    | [] => .err .UnexpectedEof
    | ev :: rest =>
      match ev with
      | .DocCommentLine line =>
        DocValue.parse_object_go fuel map maybe_prop_name (prop_dc ++ [line]) rest
      | .PropertyName name =>
        DocValue.parse_object_go fuel map (some name) prop_dc rest
      | .SimpleValue v =>
        match maybe_prop_name with
        | some prop_name =>
          if contains_key map prop_name then
            .err (.Parse (.DuplicatePropertyName prop_name))
          else
            let maybe_dc :=
              if prop_dc.isEmpty then none else some (String.join prop_dc)
            DocValue.parse_object_go fuel
              (insert_sorted map prop_name (.mk maybe_dc (value_of_simple v)))
              none [] rest
        | none => .err (.Parse .UnexpectedItem)
      | .End .Object => .ok (.Object map) rest
      | _ => .err (.Parse .UnexpectedItem)

/-- Loop of `DocValue::parse_array` (lines 99-113 of `value.rs`). -/
def DocValue.parse_array_go : Nat → List Value → List Event → BRes Value
  | 0, _, _ => .fuelOut
  | fuel + 1, values, events =>
    match events with
    | [] => .err .UnexpectedEof
    | ev :: rest =>
      match ev with
      | .SimpleValue v => DocValue.parse_array_go fuel (values ++ [value_of_simple v]) rest
      | .Start .Array =>
        match DocValue.parse_array_go fuel [] rest with
        | .fuelOut => .fuelOut
        | .err e => .err e
        | .ok v rest' => DocValue.parse_array_go fuel (values ++ [v]) rest'
      | .Start .Object =>
        match DocValue.parse_object_go fuel [] none [] rest with
        | .fuelOut => .fuelOut
        | .err e => .err e
        | .ok v rest' => DocValue.parse_array_go fuel (values ++ [v]) rest'
      | .End .Array => .ok (.Array values) rest
      | _ => .err (.Parse .UnexpectedItem)
end

/-- `DocValue::from_parser` (lines 72-97 of `value.rs`): gather leading
doc-comment lines, then build the single root value. -/
def DocValue.from_events : Nat → List String → List Event → BRes DocValue
  | 0, _, _ => .fuelOut
  | fuel + 1, doc_comment_lines, events =>
    match events with
    | [] => .err .UnexpectedEof
    | ev :: rest =>
      let finish : Value → List Event → BRes DocValue := fun value rest' =>
        let maybe_doc :=
          if doc_comment_lines.isEmpty then none
          else some (String.join doc_comment_lines)
        .ok (.mk maybe_doc value) rest'
      match ev with
      | .DocCommentLine line =>
        DocValue.from_events fuel (doc_comment_lines ++ [line]) rest
      | .SimpleValue v => finish (value_of_simple v) rest
      | .Start .Array =>
        match DocValue.parse_array_go fuel [] rest with
        | .fuelOut => .fuelOut
        | .err e => .err e
        | .ok v rest' => finish v rest'
      | .Start .Object =>
        match DocValue.parse_object_go fuel [] none [] rest with
        | .fuelOut => .fuelOut
        | .err e => .err e
        | .ok v rest' => finish v rest'
      | _ => .err (.Parse .UnexpectedItem)

/-! ### Frame properties of the lexer

`Parser::next` mutates `buf_location`, `maybe_peek`, `newline_count`,
`state` and `just_parsed_doc_comment` freely, but the committed
`location` is written only when a token attempt completes, and the
`nesting` stack is written only by `start_object`/`start_array`/
`end_complex_value`.  The predicates below track this through every
helper. -/

/-- The fields no token-scanning helper may touch: the committed
location and the nesting stack. -/
def StepFrame (p q : Parser) : Prop :=
  q.location = p.location ∧ q.nesting = p.nesting

/-- A helper result preserves the frame in every outcome. -/
def frame_only {α : Type} (p : Parser) : PRes α → Prop
  | .ok _ q _ => StepFrame p q
  | .fail _ q _ => StepFrame p q
  | .fuelOut => True

/-- Events that open or close a complex value. -/
def is_start_end : Event → Bool
  | .Start _ => true
  | .End _ => true
  | _ => false

/-- An event-producing helper preserves the frame and never produces a
`Start` or `End` event. -/
def ev_frame (p : Parser) : PRes Event → Prop
  | .ok ev q _ => StepFrame p q ∧ is_start_end ev = false
  | .fail _ q _ => StepFrame p q
  | .fuelOut => True

/-- An optional-event helper preserves the frame and never produces a
`Start` or `End` event. -/
def optev_frame (p : Parser) : PRes (Option Event) → Prop
  | .ok mev q _ => StepFrame p q ∧ ∀ ev, mev = some ev → is_start_end ev = false
  | .fail _ q _ => StepFrame p q
  | .fuelOut => True

/-- The newline loop preserves the frame, and an event out of it is
never `Start`/`End`. -/
def nl_frame (p : Parser) : PRes (Event ⊕ Char) → Prop
  | .ok a q _ => StepFrame p q ∧ ∀ ev, a = .inl ev → is_start_end ev = false
  | .fail _ q _ => StepFrame p q
  | .fuelOut => True

/-- The contract of a successful `dispatch`: the committed location is
untouched; a `Start k` pushed `k`, an `End k` popped the matching `k`,
any other event (and a silent `None`) left the nesting stack alone. -/
def DispatchOk (p : Parser) (mev : Option Event) (q : Parser) : Prop :=
  q.location = p.location ∧
  (match mev with
   | some (.Start k) => q.nesting = k :: p.nesting
   | some (.End k) => p.nesting = k :: q.nesting
   | some ev => is_start_end ev = false ∧ q.nesting = p.nesting
   | none => q.nesting = p.nesting)

def dispatch_prop (p : Parser) : PRes (Option Event) → Prop
  | .ok mev q _ => DispatchOk p mev q
  | .fail _ q _ => StepFrame p q
  | .fuelOut => True

/-- The invariant of one `Parser::next` loop iteration: a failing
iteration leaves both the committed location and the nesting stack
unchanged; an event-less iteration leaves the nesting stack unchanged;
an emitted `Start k` pushed `k`, an `End k` popped a matching `k`, and
any other event left the stack unchanged. -/
def IterProp (p : Parser) : IterOut → Prop
  | .event ev q _ =>
      (match ev with
       | .Start k => q.nesting = k :: p.nesting
       | .End k => p.nesting = k :: q.nesting
       | _ => q.nesting = p.nesting)
  | .cont q _ => q.nesting = p.nesting
  | .fail _ q _ => q.location = p.location ∧ q.nesting = p.nesting
  | .fuelOut => True

/-- Nesting effect of one emitted event. -/
def EventNest (p : Parser) (ev : Event) (q : Parser) : Prop :=
  match ev with
  | .Start k => q.nesting = k :: p.nesting
  | .End k => p.nesting = k :: q.nesting
  | _ => q.nesting = p.nesting

/-- The Start/End bracket discipline over an event list: `Start k`
pushes, `End k` pops iff `k` is on top, everything else is neutral;
`none` marks a violation. -/
def apply_brackets : List ComplexValue → List Event → Option (List ComplexValue)
  | st, [] => some st
  | st, ev :: evs =>
    match ev with
    | .Start k => apply_brackets (k :: st) evs
    | .End k =>
      match st with
      | [] => none
      | top :: rest => if top = k then apply_brackets rest evs else none
    | _ => apply_brackets st evs

/-- A parser state whose working position equals its committed position,
with no pushed-back character and no counted newlines (the state between
two `Parser::next` calls on a single line of input). -/
def pstate (st : State) (line col : Nat) (nest : List ComplexValue) : Parser :=
  { state := st, location := ⟨line, col, 0⟩, buf_location := ⟨line, col, 0⟩,
    maybe_peek := none, newline_count := 0, nesting := nest,
    just_parsed_doc_comment := false }

/-! ### Theorems -/

/-- C1: `Number::from_str` classifies its input by priority: a `0x`
prefix parses the rest as hexadecimal and yields `Unsigned`; otherwise a
`.` anywhere parses as 64.64 fixed point and yields `Fixed`; otherwise a
leading `-` parses signed base-10 and yields `Signed`; otherwise a
leading `0` with more characters following parses as octal and yields
`Unsigned`; otherwise unsigned base-10 yields `Unsigned`.  Concretely,
`"0xDEADBEEF"` yields `Unsigned 3735928559`, `"0755"` yields
`Unsigned 493`, `"-1"` yields `Signed (-1)`, and `"3.14159"` yields the
64.64 fixed-point value nearest to `3.14159`, i.e. raw bits
`round_half_even_div (314159 * 2^64) 100000`. -/
theorem number_from_str_priority :
    (∀ l : List Char,
      (l.take 2 = ['0', 'x'] → Number.from_str_chars l = parse_hex (l.drop 2))
      ∧ (l.take 2 ≠ ['0', 'x'] → l.contains '.' = true →
          Number.from_str_chars l = parse_fixed l)
      ∧ (l.take 2 ≠ ['0', 'x'] → l.contains '.' = false → l.head? = some '-' →
          Number.from_str_chars l = parse_signed l)
      ∧ (l.take 2 ≠ ['0', 'x'] → l.contains '.' = false → l.head? ≠ some '-' →
          l.head? = some '0' ∧ 1 < l.length →
          Number.from_str_chars l = parse_octal l)
      ∧ (l.take 2 ≠ ['0', 'x'] → l.contains '.' = false → l.head? ≠ some '-' →
          ¬ (l.head? = some '0' ∧ 1 < l.length) →
          Number.from_str_chars l = parse_unsigned l))
    ∧ (∀ s n, parse_hex s = .ok n → ∃ u, n = .Unsigned u)
    ∧ (∀ s n, parse_octal s = .ok n → ∃ u, n = .Unsigned u)
    ∧ (∀ s n, parse_unsigned s = .ok n → ∃ u, n = .Unsigned u)
    ∧ (∀ s n, parse_signed s = .ok n → ∃ i, n = .Signed i)
    ∧ (∀ s n, parse_fixed s = .ok n → ∃ f, n = .Fixed f)
    ∧ Number.from_str "0xDEADBEEF" = .ok (.Unsigned 3735928559)
    ∧ Number.from_str "0755" = .ok (.Unsigned 493)
    ∧ Number.from_str "-1" = .ok (.Signed (-1))
    ∧ Number.from_str "3.14159" =
        .ok (.Fixed (round_half_even_div (314159 * 2 ^ 64) 100000 : Nat)) := by
  refine ⟨?_, ?_, ?_, ?_, ?_, ?_, by rfl, by rfl, by rfl, by rfl⟩
  · intro l
    refine ⟨?_, ?_, ?_, ?_, ?_⟩
    · intro h1; simp [Number.from_str_chars, h1]
    · intro h1 h2
      have h2' : '.' ∈ l := by simpa using h2
      simp [Number.from_str_chars, h1, h2']
    · intro h1 h2 h3
      have h2' : '.' ∉ l := by simpa using h2
      simp [Number.from_str_chars, h1, h2', h3]
    · intro h1 h2 h3 h4
      have h2' : '.' ∉ l := by simpa using h2
      simp [Number.from_str_chars, h1, h2', h3, h4]
    · intro h1 h2 h3 h4
      have h2' : '.' ∉ l := by simpa using h2
      simp [Number.from_str_chars, h1, h2', h3, h4]
  · intro s n h
    unfold parse_hex at h
    cases hu : u64_from_str_radix 16 s with
    | ok v => rw [hu] at h; exact ⟨v, by cases h; rfl⟩
    | err e => rw [hu] at h; cases h
  · intro s n h
    unfold parse_octal at h
    cases hu : u64_from_str_radix 8 s with
    | ok v => rw [hu] at h; exact ⟨v, by cases h; rfl⟩
    | err e => rw [hu] at h; cases h
  · intro s n h
    unfold parse_unsigned at h
    cases hu : u64_from_str_radix 10 s with
    | ok v => rw [hu] at h; exact ⟨v, by cases h; rfl⟩
    | err e => rw [hu] at h; cases h
  · intro s n h
    unfold parse_signed at h
    cases hu : i64_from_str s with
    | ok v => rw [hu] at h; exact ⟨v, by cases h; rfl⟩
    | err e => rw [hu] at h; cases h
  · intro s n h
    unfold parse_fixed at h
    cases hu : fixed_from_str s with
    | ok v => rw [hu] at h; exact ⟨v, by cases h; rfl⟩
    | err e => rw [hu] at h; cases h

/-- Witness for `number_from_str_priority`: its hypothesis-bearing
components, applied at concrete inputs. -/
theorem number_from_str_priority_witness :
    Number.from_str_chars ['0', 'x', 'A'] = parse_hex ['A']
    ∧ Number.from_str_chars ['-', '1'] = parse_signed ['-', '1']
    ∧ (∃ u, Number.Unsigned 10 = Number.Unsigned u) :=
  ⟨(number_from_str_priority.1 ['0', 'x', 'A']).1 (by decide),
   (number_from_str_priority.1 ['-', '1']).2.2.1 (by decide) (by decide) (by decide),
   number_from_str_priority.2.1 ['A'] (.Unsigned 10) (by rfl)⟩

/-- C3 (code bug): on the one-byte input `"a"` (`0x61`, width 1) the
character's last byte is the final byte of the input, exactly as many
bytes remain as the lead byte's width, and the claim says the character
must be returned with the position advanced by 1.  The code's
`pos + ch_len >= self.len` test instead returns the end-of-input error
`UnexpectedEof` and leaves the position unchanged, so the decoder can
never decode the final character of any input. -/
theorem utf8Decoder_next_last_char_eof :
    utf8_char_width 0x61 = 1
    ∧ (Utf8Decoder.of_bytes [0x61]).len - (Utf8Decoder.of_bytes [0x61]).pos = 1
    ∧ (Utf8Decoder.of_bytes [0x61]).next =
        (some (.err ⟨1, .UnexpectedEof⟩), Utf8Decoder.of_bytes [0x61]) := by
  refine ⟨by rfl, by rfl, by rfl⟩

/-- C4 (code bug): `0xFF` is not a legal UTF-8 lead byte (the width
table maps it to 0), and the claim says `Utf8Decoder::next` must fail
with an encoding error.  The code never checks for width 0: with
`ch_len = 0` the guard `pos + ch_len >= len` is false whenever the
cursor is inside the input, so `next` returns the successful result
`Some(Ok(&src[pos..pos]))` — an empty byte slice — without advancing. -/
theorem utf8Decoder_next_invalid_lead_byte_ok :
    utf8_char_width 0xFF = 0
    ∧ (Utf8Decoder.of_bytes [0xFF, 0x61]).next =
        (some (.ok []), Utf8Decoder.of_bytes [0xFF, 0x61]) := by
  refine ⟨by rfl, by rfl⟩

theorem StepFrame.refl {p : Parser} : StepFrame p p := ⟨Eq.refl _, Eq.refl _⟩

theorem StepFrame.trans {p q r : Parser} (h1 : StepFrame p q) (h2 : StepFrame q r) :
    StepFrame p r :=
  ⟨h2.1.trans h1.1, h2.2.trans h1.2⟩

theorem frame_only_trans {α : Type} {p q : Parser} {r : PRes α}
    (h1 : StepFrame p q) (h2 : frame_only q r) : frame_only p r := by
  cases r with
  | ok a q' b => exact StepFrame.trans h1 h2
  | fail e q' b => exact StepFrame.trans h1 h2
  | fuelOut => trivial

theorem next_char_frame (p : Parser) (buf : Buf) : frame_only p (p.next_char buf) := by
  unfold Parser.next_char
  cases p.maybe_peek with
  | some ch => exact ⟨rfl, rfl⟩
  | none =>
    cases decode_char buf with
    | err e => exact ⟨rfl, rfl⟩
    | ok o =>
      cases o with
      | none => exact ⟨rfl, rfl⟩
      | some cb =>
        obtain ⟨ch, buf'⟩ := cb
        by_cases h1 : ch = '\n' <;> by_cases h2 : ch = '\r' <;>
          simp [h1, h2, frame_only, StepFrame]

theorem consume_until_not_frame (fuel : Nat) :
    ∀ (p : Parser) (buf : Buf) (keep : List Char),
      frame_only p (Parser.consume_until_not fuel p buf keep) := by
  induction fuel with
  | zero => intro p buf keep; trivial
  | succ n ih =>
    intro p buf keep
    simp only [Parser.consume_until_not]
    split
    · exact ⟨rfl, rfl⟩
    · have h := next_char_frame p buf
      cases hnc : p.next_char buf with
      | fuelOut => trivial
      | fail e q b => rw [hnc] at h; dsimp only; exact h
      | ok ch q b =>
        rw [hnc] at h
        dsimp only
        split
        · exact frame_only_trans h (ih q b keep)
        · exact ⟨h.1, h.2⟩

theorem skip_whitespace_frame (fuel : Nat) (p : Parser) (buf : Buf) :
    frame_only p (p.skip_whitespace fuel buf) :=
  consume_until_not_frame fuel p buf _

theorem pnssv_go_frame (fuel : Nat) :
    ∀ (p : Parser) (s : String) (buf : Buf),
      frame_only p (Parser.pnssv_go fuel p s buf) := by
  induction fuel with
  | zero => intro p s buf; trivial
  | succ n ih =>
    intro p s buf
    simp only [Parser.pnssv_go]
    split
    · split <;> exact ⟨rfl, rfl⟩
    · have h := next_char_frame p buf
      cases hnc : p.next_char buf with
      | fuelOut => trivial
      | fail e q b => rw [hnc] at h; dsimp only; exact h
      | ok ch q b =>
        rw [hnc] at h
        dsimp only
        split
        · exact h
        · split
          · split <;> exact h
          · split
            · exact ⟨h.1, h.2⟩
            · split
              · exact frame_only_trans h (ih q _ b)
              · exact h

theorem pnssv_frame (fuel : Nat) (p : Parser) (c : Char) (buf : Buf) :
    frame_only p (p.parse_non_string_simple_value fuel c buf) :=
  pnssv_go_frame fuel p _ buf

theorem parse_number_frame (fuel : Nat) (p : Parser) (c : Char) (buf : Buf) :
    ev_frame p (p.parse_number fuel c buf) := by
  unfold Parser.parse_number
  have h := pnssv_frame fuel p c buf
  cases hv : p.parse_non_string_simple_value fuel c buf with
  | fuelOut => trivial
  | fail e q b => rw [hv] at h; dsimp only; exact h
  | ok value q b =>
    rw [hv] at h
    dsimp only
    cases Number.from_str_chars value.data with
    | err e => exact h
    | ok n => exact ⟨h, rfl⟩

theorem parse_number_or_date_frame (fuel : Nat) (p : Parser) (c : Char) (buf : Buf) :
    ev_frame p (p.parse_number_or_date fuel c buf) := by
  unfold Parser.parse_number_or_date
  split
  · exact parse_number_frame fuel p c buf
  · have h := pnssv_frame fuel p c buf
    cases hv : p.parse_non_string_simple_value fuel c buf with
    | fuelOut => trivial
    | fail e q b => rw [hv] at h; dsimp only; exact h
    | ok value q b =>
      rw [hv] at h
      dsimp only
      split
      · cases parse_date_time value.data with
        | err e => exact h
        | ok dt => exact ⟨h, rfl⟩
      · split
        · cases parse_date value.data with
          | err e => exact h
          | ok d => exact ⟨h, rfl⟩
        · cases Number.from_str_chars value.data with
          | err e => exact h
          | ok n => exact ⟨h, rfl⟩

theorem parse_bool_frame (fuel : Nat) (p : Parser) (c : Char) (buf : Buf) :
    ev_frame p (p.parse_bool fuel c buf) := by
  unfold Parser.parse_bool
  have h := pnssv_frame fuel p c buf
  cases hv : p.parse_non_string_simple_value fuel c buf with
  | fuelOut => trivial
  | fail e q b => rw [hv] at h; dsimp only; exact h
  | ok value q b =>
    rw [hv] at h
    dsimp only
    split
    · exact ⟨h, rfl⟩
    · split
      · exact ⟨h, rfl⟩
      · exact h

theorem parse_null_frame (fuel : Nat) (p : Parser) (c : Char) (buf : Buf) :
    ev_frame p (p.parse_null fuel c buf) := by
  unfold Parser.parse_null
  have h := pnssv_frame fuel p c buf
  cases hv : p.parse_non_string_simple_value fuel c buf with
  | fuelOut => trivial
  | fail e q b => rw [hv] at h; dsimp only; exact h
  | ok value q b =>
    rw [hv] at h
    dsimp only
    split
    · exact ⟨h, rfl⟩
    · exact h

theorem parse_escape_seq_frame (p : Parser) (buf : Buf) :
    frame_only p (p.parse_escape_seq buf) := by
  unfold Parser.parse_escape_seq
  have h := next_char_frame p buf
  cases hnc : p.next_char buf with
  | fuelOut => trivial
  | fail e q b => rw [hnc] at h; dsimp only; exact h
  | ok ch q b =>
    rw [hnc] at h
    dsimp only
    repeat' split
    all_goals exact h

theorem parse_string_go_frame (fuel : Nat) :
    ∀ (p : Parser) (value : String) (buf : Buf),
      ev_frame p (Parser.parse_string_go fuel p value buf) := by
  induction fuel with
  | zero => intro p value buf; trivial
  | succ n ih =>
    intro p value buf
    simp only [Parser.parse_string_go]
    split
    · exact ⟨rfl, rfl⟩
    · have h := next_char_frame p buf
      cases hnc : p.next_char buf with
      | fuelOut => trivial
      | fail e q b => rw [hnc] at h; dsimp only; exact h
      | ok ch q b =>
        rw [hnc] at h
        dsimp only
        split
        · have h2 := parse_escape_seq_frame q b
          cases hesc : q.parse_escape_seq b with
          | fuelOut => trivial
          | fail e q2 b2 =>
            rw [hesc] at h2; dsimp only; exact StepFrame.trans h h2
          | ok c q2 b2 =>
            rw [hesc] at h2
            dsimp only
            have h3 := ih q2 (value.push c) b2
            cases hr : Parser.parse_string_go n q2 (value.push c) b2 with
            | fuelOut => trivial
            | fail e q3 b3 => rw [hr] at h3; exact StepFrame.trans (StepFrame.trans h h2) h3
            | ok ev q3 b3 =>
              rw [hr] at h3
              exact ⟨StepFrame.trans (StepFrame.trans h h2) h3.1, h3.2⟩
        · split
          · exact ⟨h, rfl⟩
          · have h3 := ih q (value.push ch) b
            cases hr : Parser.parse_string_go n q (value.push ch) b with
            | fuelOut => trivial
            | fail e q3 b3 => rw [hr] at h3; exact StepFrame.trans h h3
            | ok ev q3 b3 => rw [hr] at h3; exact ⟨StepFrame.trans h h3.1, h3.2⟩

theorem parse_string_frame (fuel : Nat) (p : Parser) (buf : Buf) :
    ev_frame p (p.parse_string fuel buf) :=
  parse_string_go_frame fuel p "" buf

theorem ev_frame_trans {p q : Parser} {r : PRes Event}
    (h1 : StepFrame p q) (h2 : ev_frame q r) : ev_frame p r := by
  cases r with
  | ok ev q' b => exact ⟨StepFrame.trans h1 h2.1, h2.2⟩
  | fail e q' b => exact StepFrame.trans h1 h2
  | fuelOut => trivial

theorem optev_frame_trans {p q : Parser} {r : PRes (Option Event)}
    (h1 : StepFrame p q) (h2 : optev_frame q r) : optev_frame p r := by
  cases r with
  | ok mev q' b => exact ⟨StepFrame.trans h1 h2.1, h2.2⟩
  | fail e q' b => exact StepFrame.trans h1 h2
  | fuelOut => trivial

theorem parse_string_lit_go_frame (fuel : Nat) :
    ∀ (p : Parser) (ins : Bool) (value tag : String) (buf : Buf),
      ev_frame p (Parser.parse_string_lit_go fuel p ins value tag buf) := by
  induction fuel with
  | zero => intro p ins value tag buf; trivial
  | succ n ih =>
    intro p ins value tag buf
    simp only [Parser.parse_string_lit_go]
    split
    · exact ⟨rfl, rfl⟩
    · have h := next_char_frame p buf
      cases hnc : p.next_char buf with
      | fuelOut => trivial
      | fail e q b => rw [hnc] at h; dsimp only; exact h
      | ok ch q b =>
        rw [hnc] at h
        dsimp only
        split
        · split
          · exact ⟨h, rfl⟩
          · exact ev_frame_trans h (ih q true _ tag b)
        · split
          · exact ev_frame_trans h (ih q false value _ b)
          · split
            · exact ev_frame_trans h (ih q true value tag b)
            · exact h

theorem parse_string_literal_frame (fuel : Nat) (p : Parser) (buf : Buf) :
    ev_frame p (p.parse_string_literal fuel buf) :=
  parse_string_lit_go_frame fuel p false "" _ buf

theorem parse_doc_comment_go_frame (fuel : Nat) :
    ∀ (p : Parser) (value : String) (buf : Buf),
      ev_frame p (Parser.parse_doc_comment_go fuel p value buf) := by
  induction fuel with
  | zero => intro p value buf; trivial
  | succ n ih =>
    intro p value buf
    simp only [Parser.parse_doc_comment_go]
    split
    · exact ⟨rfl, rfl⟩
    · have h := next_char_frame p buf
      cases hnc : p.next_char buf with
      | fuelOut => trivial
      | fail e q b => rw [hnc] at h; dsimp only; exact h
      | ok ch q b =>
        rw [hnc] at h
        dsimp only
        split
        · exact ⟨⟨h.1, h.2⟩, rfl⟩
        · exact ev_frame_trans h (ih q _ b)

theorem parse_doc_comment_line_frame (fuel : Nat) (p : Parser) (buf : Buf) :
    ev_frame p (p.parse_doc_comment_line fuel buf) :=
  parse_doc_comment_go_frame fuel p "" buf

theorem parse_single_line_go_frame (fuel : Nat) :
    ∀ (p : Parser) (buf : Buf),
      optev_frame p (Parser.parse_single_line_go fuel p buf) := by
  induction fuel with
  | zero => intro p buf; trivial
  | succ n ih =>
    intro p buf
    simp only [Parser.parse_single_line_go]
    split
    · exact ⟨rfl, rfl⟩
    · have h := next_char_frame p buf
      cases hnc : p.next_char buf with
      | fuelOut => trivial
      | fail e q b => rw [hnc] at h; dsimp only; exact h
      | ok ch q b =>
        rw [hnc] at h
        dsimp only
        split
        · exact ⟨⟨h.1, h.2⟩, by intro ev hev; cases hev⟩
        · exact optev_frame_trans h (ih q b)

theorem parse_single_line_comment_frame (fuel : Nat) (p : Parser) (c : Char) (buf : Buf) :
    optev_frame p (p.parse_single_line_comment fuel c buf) := by
  unfold Parser.parse_single_line_comment
  split
  · exact ⟨StepFrame.refl, by intro ev hev; cases hev⟩
  · exact parse_single_line_go_frame fuel p buf

theorem parse_multiline_go_frame (fuel : Nat) :
    ∀ (p : Parser) (prev : Char) (buf : Buf),
      optev_frame p (Parser.parse_multiline_go fuel p prev buf) := by
  induction fuel with
  | zero => intro p prev buf; trivial
  | succ n ih =>
    intro p prev buf
    simp only [Parser.parse_multiline_go]
    split
    · exact ⟨rfl, rfl⟩
    · have h := next_char_frame p buf
      cases hnc : p.next_char buf with
      | fuelOut => trivial
      | fail e q b => rw [hnc] at h; dsimp only; exact h
      | ok ch q b =>
        rw [hnc] at h
        dsimp only
        split
        · exact ⟨h, by intro ev hev; cases hev⟩
        · exact optev_frame_trans h (ih q ch b)

theorem parse_multiline_comment_frame (fuel : Nat) (p : Parser) (buf : Buf) :
    optev_frame p (p.parse_multiline_comment fuel buf) :=
  parse_multiline_go_frame fuel p _ buf

theorem parse_pre_value_comment_frame (fuel : Nat) (p : Parser) (buf : Buf) :
    optev_frame p (p.parse_pre_value_comment fuel buf) := by
  unfold Parser.parse_pre_value_comment
  have h := next_char_frame p buf
  cases hnc : p.next_char buf with
  | fuelOut => trivial
  | fail e q b => rw [hnc] at h; dsimp only; exact h
  | ok ch1 q b =>
    rw [hnc] at h
    dsimp only
    split
    · have h2 := next_char_frame q b
      cases hnc2 : q.next_char b with
      | fuelOut => trivial
      | fail e q2 b2 => rw [hnc2] at h2; dsimp only; exact StepFrame.trans h h2
      | ok ch2 q2 b2 =>
        rw [hnc2] at h2
        dsimp only
        have h12 := StepFrame.trans h h2
        split
        · split
          · have h3 := parse_doc_comment_line_frame fuel q2 b2
            cases hdc : q2.parse_doc_comment_line fuel b2 with
            | fuelOut => trivial
            | fail e q3 b3 => rw [hdc] at h3; dsimp only; exact StepFrame.trans h12 h3
            | ok ev q3 b3 =>
              rw [hdc] at h3
              dsimp only
              exact ⟨StepFrame.trans h12 h3.1, by
                intro ev' hev'; cases hev'; exact h3.2⟩
          · exact h12
        · exact optev_frame_trans h12 (parse_single_line_comment_frame fuel q2 ch2 b2)
    · split
      · exact optev_frame_trans h (parse_multiline_comment_frame fuel q b)
      · exact h

theorem parse_pre_propname_comment_frame (fuel : Nat) (p : Parser) (buf : Buf) :
    optev_frame p (p.parse_pre_propname_comment fuel buf) := by
  unfold Parser.parse_pre_propname_comment
  have h := next_char_frame p buf
  cases hnc : p.next_char buf with
  | fuelOut => trivial
  | fail e q b => rw [hnc] at h; dsimp only; exact h
  | ok ch1 q b =>
    rw [hnc] at h
    dsimp only
    split
    · have h2 := next_char_frame q b
      cases hnc2 : q.next_char b with
      | fuelOut => trivial
      | fail e q2 b2 => rw [hnc2] at h2; dsimp only; exact StepFrame.trans h h2
      | ok ch2 q2 b2 =>
        rw [hnc2] at h2
        dsimp only
        have h12 := StepFrame.trans h h2
        split
        · have h3 := parse_doc_comment_line_frame fuel q2 b2
          cases hdc : q2.parse_doc_comment_line fuel b2 with
          | fuelOut => trivial
          | fail e q3 b3 => rw [hdc] at h3; dsimp only; exact StepFrame.trans h12 h3
          | ok ev q3 b3 =>
            rw [hdc] at h3
            dsimp only
            exact ⟨StepFrame.trans h12 h3.1, by
              intro ev' hev'; cases hev'; exact h3.2⟩
        · exact optev_frame_trans h12 (parse_single_line_comment_frame fuel q2 ch2 b2)
    · split
      · exact optev_frame_trans h (parse_multiline_comment_frame fuel q b)
      · exact h

theorem parse_property_name_go_frame (fuel : Nat) :
    ∀ (p : Parser) (name : String) (buf : Buf),
      ev_frame p (Parser.parse_property_name_go fuel p name buf) := by
  induction fuel with
  | zero => intro p name buf; trivial
  | succ n ih =>
    intro p name buf
    simp only [Parser.parse_property_name_go]
    split
    · exact ⟨rfl, rfl⟩
    · have h := next_char_frame p buf
      cases hnc : p.next_char buf with
      | fuelOut => trivial
      | fail e q b => rw [hnc] at h; dsimp only; exact h
      | ok ch q b =>
        rw [hnc] at h
        dsimp only
        split
        · exact ev_frame_trans h (ih q _ b)
        · split
          · exact ⟨h, rfl⟩
          · exact h

theorem parse_property_name_frame (fuel : Nat) (p : Parser) (c : Char) (buf : Buf) :
    ev_frame p (p.parse_property_name fuel c buf) :=
  parse_property_name_go_frame fuel p _ buf

theorem nl_frame_trans {p q : Parser} {r : PRes (Event ⊕ Char)}
    (h1 : StepFrame p q) (h2 : nl_frame q r) : nl_frame p r := by
  cases r with
  | ok a q' b => exact ⟨StepFrame.trans h1 h2.1, h2.2⟩
  | fail e q' b => exact StepFrame.trans h1 h2
  | fuelOut => trivial

theorem newline_loop_frame (fuel : Nat) :
    ∀ (p : Parser) (ch : Char) (buf : Buf),
      nl_frame p (p.newline_loop fuel ch buf) := by
  induction fuel with
  | zero =>
    intro p ch buf
    rw [Parser.newline_loop]
    split
    · dsimp only
      split
      · split
        · exact ⟨rfl, rfl⟩
        · exact ⟨⟨rfl, rfl⟩, by intro ev hev; cases hev; rfl⟩
      · trivial
    · exact ⟨StepFrame.refl, by intro ev hev; cases hev⟩
  | succ n ih =>
    intro p ch buf
    rw [Parser.newline_loop]
    split
    · dsimp only
      split
      · split
        · exact ⟨rfl, rfl⟩
        · exact ⟨⟨rfl, rfl⟩, by intro ev hev; cases hev; rfl⟩
      · have hw := skip_whitespace_frame n { p with newline_count := p.newline_count + 1 } buf
        cases hsw : Parser.skip_whitespace n { p with newline_count := p.newline_count + 1 } buf with
        | fuelOut => trivial
        | fail e q b => rw [hsw] at hw; dsimp only; exact hw
        | ok u q b =>
          rw [hsw] at hw
          dsimp only
          have h2 := next_char_frame q b
          cases hnc : q.next_char b with
          | fuelOut => trivial
          | fail e q2 b2 => rw [hnc] at h2; dsimp only; exact StepFrame.trans hw h2
          | ok ch2 q2 b2 =>
            rw [hnc] at h2
            dsimp only
            exact nl_frame_trans (StepFrame.trans hw h2) (ih q2 ch2 b2)
    · exact ⟨StepFrame.refl, by intro ev hev; cases hev⟩

/-- What `end_complex_value` guarantees: on success the event is
`End cv`, exactly the matching top entry is popped, and the committed
location is untouched; with an empty stack or a non-matching top it
fails with `UnexpectedChar`. -/
theorem end_complex_value_spec (p : Parser) (ch : Char) (cv : ComplexValue) :
    (∀ ev q, p.end_complex_value ch cv = .ok (ev, q) →
        ev = .End cv ∧ p.nesting = cv :: q.nesting ∧ q.location = p.location)
    ∧ (p.nesting.head? ≠ some cv →
        p.end_complex_value ch cv = .err (p.err_in_buf (.UnexpectedChar ch))) := by
  constructor
  · intro ev q h
    unfold Parser.end_complex_value at h
    cases hn : p.nesting with
    | nil => rw [hn] at h; dsimp only at h; cases h
    | cons top rest =>
      rw [hn] at h
      dsimp only at h
      by_cases htop : top = cv
      · rw [if_pos htop] at h
        cases h
        exact ⟨rfl, by rw [htop], rfl⟩
      · rw [if_neg htop] at h; cases h
  · intro hne
    unfold Parser.end_complex_value
    cases hn : p.nesting with
    | nil => rfl
    | cons top rest =>
      rw [hn] at hne
      have htop : top ≠ cv := by
        intro hc; exact hne (by rw [hc]; rfl)
      dsimp only
      rw [if_neg htop]

theorem dispatchOk_of_simple {p q : Parser} {ev : Event}
    (hse : is_start_end ev = false) (hloc : q.location = p.location)
    (hnest : q.nesting = p.nesting) : DispatchOk p (some ev) q := by
  cases ev with
  | Start k => exact absurd hse (by simp [is_start_end])
  | End k => exact absurd hse (by simp [is_start_end])
  | Linespace => exact ⟨hloc, rfl, hnest⟩
  | DocCommentLine s => exact ⟨hloc, rfl, hnest⟩
  | SimpleValue v => exact ⟨hloc, rfl, hnest⟩
  | PropertyName s => exact ⟨hloc, rfl, hnest⟩

theorem dispatchOk_of_opt {p q : Parser} {mev : Option Event}
    (hse : ∀ ev, mev = some ev → is_start_end ev = false)
    (hloc : q.location = p.location) (hnest : q.nesting = p.nesting) :
    DispatchOk p mev q := by
  cases mev with
  | none => exact ⟨hloc, hnest⟩
  | some ev => exact dispatchOk_of_simple (hse ev rfl) hloc hnest

set_option maxHeartbeats 2000000 in
theorem dispatch_frame (fuel : Nat) (p : Parser) (ch : Char) (buf : Buf) :
    dispatch_prop p (p.dispatch fuel ch buf) := by
  unfold Parser.dispatch
  cases hst : p.state with
  | ExpectingValue =>
    dsimp only
    split
    · exact ⟨rfl, rfl⟩
    · split
      · exact ⟨rfl, rfl⟩
      · split
        · -- ']'
          cases hec : p.end_complex_value ch .Array with
          | err e => exact StepFrame.refl
          | ok evq =>
            obtain ⟨ev, q⟩ := evq
            obtain ⟨hev, hnest, hloc⟩ := (end_complex_value_spec p ch .Array).1 ev q hec
            subst hev
            exact ⟨hloc, hnest⟩
        · split
          · -- number or date
            have h := parse_number_or_date_frame fuel p ch buf
            cases hr : p.parse_number_or_date fuel ch buf with
            | fuelOut => trivial
            | fail e q b => rw [hr] at h; exact h
            | ok ev q b =>
              rw [hr] at h
              exact dispatchOk_of_simple h.2 h.1.1 h.1.2
          · split
            · have h := parse_bool_frame fuel p ch buf
              cases hr : p.parse_bool fuel ch buf with
              | fuelOut => trivial
              | fail e q b => rw [hr] at h; exact h
              | ok ev q b =>
                rw [hr] at h
                exact dispatchOk_of_simple h.2 h.1.1 h.1.2
            · split
              · have h := parse_null_frame fuel p ch buf
                cases hr : p.parse_null fuel ch buf with
                | fuelOut => trivial
                | fail e q b => rw [hr] at h; exact h
                | ok ev q b =>
                  rw [hr] at h
                  exact dispatchOk_of_simple h.2 h.1.1 h.1.2
              · split
                · have h := parse_string_literal_frame fuel p buf
                  cases hr : p.parse_string_literal fuel buf with
                  | fuelOut => trivial
                  | fail e q b => rw [hr] at h; exact h
                  | ok ev q b =>
                    rw [hr] at h
                    exact dispatchOk_of_simple h.2 h.1.1 h.1.2
                · split
                  · have h := parse_string_frame fuel p buf
                    cases hr : p.parse_string fuel buf with
                    | fuelOut => trivial
                    | fail e q b => rw [hr] at h; exact h
                    | ok ev q b =>
                      rw [hr] at h
                      exact dispatchOk_of_simple h.2 h.1.1 h.1.2
                  · split
                    · have h := parse_pre_value_comment_frame fuel p buf
                      cases hr : p.parse_pre_value_comment fuel buf with
                      | fuelOut => trivial
                      | fail e q b => rw [hr] at h; exact h
                      | ok mev q b =>
                        rw [hr] at h
                        exact dispatchOk_of_opt h.2 h.1.1 h.1.2
                    · split
                      · split
                        · exact StepFrame.refl
                        · exact ⟨rfl, rfl⟩
                      · exact StepFrame.refl
  | ExpectingPropertyName =>
    dsimp only
    split
    · -- '}'
      cases hec : p.end_complex_value ch .Object with
      | err e => exact StepFrame.refl
      | ok evq =>
        obtain ⟨ev, q⟩ := evq
        obtain ⟨hev, hnest, hloc⟩ := (end_complex_value_spec p ch .Object).1 ev q hec
        subst hev
        exact ⟨hloc, hnest⟩
    · split
      · have h := parse_property_name_frame fuel p ch buf
        cases hr : p.parse_property_name fuel ch buf with
        | fuelOut => trivial
        | fail e q b => rw [hr] at h; exact h
        | ok ev q b =>
          rw [hr] at h
          exact dispatchOk_of_simple h.2 h.1.1 h.1.2
      · split
        · have h := parse_pre_propname_comment_frame fuel p buf
          cases hr : p.parse_pre_propname_comment fuel buf with
          | fuelOut => trivial
          | fail e q b => rw [hr] at h; exact h
          | ok mev q b =>
            rw [hr] at h
            exact dispatchOk_of_opt h.2 h.1.1 h.1.2
        · split
          · exact ⟨rfl, rfl⟩
          · exact StepFrame.refl

theorem apply_post_nesting (p : Parser) (mev : Option Event) :
    (p.apply_post mev).nesting = p.nesting := by
  unfold Parser.apply_post
  cases mev with
  | none => rfl
  | some ev =>
    cases ev with
    | SimpleValue v => dsimp only; split <;> rfl
    | End cv => dsimp only; split <;> rfl
    | Linespace => rfl
    | DocCommentLine s => rfl
    | Start cv => rfl
    | PropertyName s => rfl

theorem iterProp_event_of_other {p q : Parser} {ev : Event} {b : Buf}
    (hse : is_start_end ev = false) (hnest : q.nesting = p.nesting) :
    IterProp p (.event ev q b) := by
  cases ev with
  | Start k => exact absurd hse (by simp [is_start_end])
  | End k => exact absurd hse (by simp [is_start_end])
  | Linespace => exact hnest
  | DocCommentLine s => exact hnest
  | SimpleValue v => exact hnest
  | PropertyName s => exact hnest

set_option maxHeartbeats 2000000 in
theorem next_iter_invariant (fuel : Nat) (p : Parser) (buf : Buf) :
    IterProp p (p.next_iter fuel buf) := by
  unfold Parser.next_iter
  dsimp only
  have h0 : StepFrame p { p with buf_location := p.location } := ⟨rfl, rfl⟩
  have hw := skip_whitespace_frame fuel { p with buf_location := p.location } buf
  cases hsw : Parser.skip_whitespace fuel { p with buf_location := p.location } buf with
  | fuelOut => trivial
  | fail e q b =>
    rw [hsw] at hw
    dsimp only
    exact (StepFrame.trans h0 hw : StepFrame p q)
  | ok u q b =>
    rw [hsw] at hw
    dsimp only
    have h1 : StepFrame p q := StepFrame.trans h0 hw
    have hnc0 := next_char_frame q b
    cases hnc : q.next_char b with
    | fuelOut => trivial
    | fail e q2 b2 =>
      rw [hnc] at hnc0
      exact (StepFrame.trans h1 hnc0 : StepFrame p q2)
    | ok ch q2 b2 =>
      rw [hnc] at hnc0
      dsimp only
      have h2 : StepFrame p q2 := StepFrame.trans h1 hnc0
      have hnl0 := newline_loop_frame fuel q2 ch b2
      cases hnl : q2.newline_loop fuel ch b2 with
      | fuelOut => trivial
      | fail e q3 b3 =>
        rw [hnl] at hnl0
        exact (StepFrame.trans h2 hnl0 : StepFrame p q3)
      | ok a q3 b3 =>
        rw [hnl] at hnl0
        have h3 : StepFrame p q3 := StepFrame.trans h2 hnl0.1
        cases a with
        | inl ev =>
          exact iterProp_event_of_other (hnl0.2 ev rfl) h3.2
        | inr ch2 =>
          dsimp only
          have h4 : StepFrame p { q3 with newline_count := 0 } := StepFrame.trans h3 ⟨rfl, rfl⟩
          have hd0 := dispatch_frame fuel { q3 with newline_count := 0 } ch2 b3
          cases hd : Parser.dispatch fuel { q3 with newline_count := 0 } ch2 b3 with
          | fuelOut => trivial
          | fail e q5 b5 =>
            rw [hd] at hd0
            exact (StepFrame.trans h4 hd0 : StepFrame p q5)
          | ok mev q5 b5 =>
            rw [hd] at hd0
            dsimp only
            have hpost := apply_post_nesting q5 mev
            cases mev with
            | none =>
              dsimp only
              calc (q5.apply_post none).nesting = q5.nesting := hpost
                _ = p.nesting := hd0.2.trans h4.2
            | some ev =>
              dsimp only
              cases ev with
              | Start k =>
                show (q5.apply_post _).nesting = k :: p.nesting
                rw [hpost]
                exact (hd0.2 : q5.nesting = k :: _).trans (by rw [h4.2])
              | End k =>
                show p.nesting = k :: (q5.apply_post _).nesting
                rw [hpost]
                rw [← h4.2]
                exact hd0.2
              | Linespace =>
                show (q5.apply_post _).nesting = p.nesting
                rw [hpost]; exact hd0.2.2.trans h4.2
              | DocCommentLine s =>
                show (q5.apply_post _).nesting = p.nesting
                rw [hpost]; exact hd0.2.2.trans h4.2
              | SimpleValue v =>
                show (q5.apply_post _).nesting = p.nesting
                rw [hpost]; exact hd0.2.2.trans h4.2
              | PropertyName s =>
                show (q5.apply_post _).nesting = p.nesting
                rw [hpost]; exact hd0.2.2.trans h4.2

theorem eventNest_of_prefix {p p' q : Parser} {ev : Event}
    (hpre : p'.nesting = p.nesting) (h : EventNest p' ev q) : EventNest p ev q := by
  cases ev with
  | Start k => exact h.trans (by rw [hpre])
  | End k =>
    show p.nesting = k :: q.nesting
    rw [← hpre]; exact h
  | Linespace => exact h.trans hpre
  | DocCommentLine s => exact h.trans hpre
  | SimpleValue v => exact h.trans hpre
  | PropertyName s => exact h.trans hpre

theorem next_nesting (fuel : Nat) :
    ∀ (p : Parser) (buf : Buf) (ev : Event) (q : Parser) (b : Buf),
      Parser.next fuel p buf = .ok ev q b → EventNest p ev q := by
  induction fuel with
  | zero => intro p buf ev q b h; cases h
  | succ n ih =>
    intro p buf ev q b h
    rw [Parser.next] at h
    have hi := next_iter_invariant n p buf
    cases hit : p.next_iter n buf with
    | fuelOut => rw [hit] at h; dsimp only at h; cases h
    | fail e q' b' => rw [hit] at h; dsimp only at h; cases h
    | event ev' q' b' =>
      rw [hit] at h hi
      dsimp only at h
      cases h
      exact hi
    | cont q' b' =>
      rw [hit] at h hi
      dsimp only at h
      exact eventNest_of_prefix hi (ih q' b' ev q b h)

theorem lex_all_brackets (outer : Nat) :
    ∀ (fuel : Nat) (p : Parser) (buf : Buf),
      ∃ st, apply_brackets p.nesting (Parser.lex_all outer fuel p buf).1 = some st := by
  induction outer with
  | zero => intro fuel p buf; exact ⟨p.nesting, rfl⟩
  | succ n ih =>
    intro fuel p buf
    rw [Parser.lex_all]
    cases hn : Parser.next fuel p buf with
    | fuelOut => exact ⟨p.nesting, rfl⟩
    | fail e q b => exact ⟨p.nesting, rfl⟩
    | ok ev q b =>
      dsimp only
      have hen := next_nesting fuel p buf ev q b hn
      obtain ⟨st, hst⟩ := ih fuel q b
      cases hl : Parser.lex_all n fuel q b with
      | mk evs r =>
        rw [hl] at hst
        dsimp only at hst ⊢
        refine ⟨st, ?_⟩
        cases ev with
        | Start k =>
          show apply_brackets (k :: p.nesting) evs = some st
          rw [← hen]; exact hst
        | End k =>
          show (match p.nesting with
                | [] => none
                | top :: rest => if top = k then apply_brackets rest evs else none) = some st
          rw [hen]
          simp only [if_pos rfl]
          exact hst
        | Linespace => show apply_brackets p.nesting evs = some st; rw [← hen]; exact hst
        | DocCommentLine s => show apply_brackets p.nesting evs = some st; rw [← hen]; exact hst
        | SimpleValue v => show apply_brackets p.nesting evs = some st; rw [← hen]; exact hst
        | PropertyName s => show apply_brackets p.nesting evs = some st; rw [← hen]; exact hst

/-- C2: repeated `Parser::next` calls on `{ a 1, b true }` produce
exactly `Start(Object), PropertyName("a"),
SimpleValue(Number(Unsigned 1)), PropertyName("b"),
SimpleValue(Boolean true), End(Object)` in that order, each call
returning the state the next call starts from, and the call after the
last event finds the buffer exhausted. -/
theorem lex_simple_object_events :
    Parser.next 99 Parser.init (str_bytes "\x7b a 1, b true \x7d") =
      .ok (.Start .Object)
        (pstate .ExpectingPropertyName 1 2 [.Object]) (str_bytes " a 1, b true \x7d")
    ∧ Parser.next 99 (pstate .ExpectingPropertyName 1 2 [.Object])
        (str_bytes " a 1, b true \x7d") =
      .ok (.PropertyName "a")
        (pstate .ExpectingValue 1 5 [.Object]) (str_bytes "1, b true \x7d")
    ∧ Parser.next 99 (pstate .ExpectingValue 1 5 [.Object]) (str_bytes "1, b true \x7d") =
      .ok (.SimpleValue (.Number (.Unsigned 1)))
        (pstate .ExpectingPropertyName 1 7 [.Object]) (str_bytes " b true \x7d")
    ∧ Parser.next 99 (pstate .ExpectingPropertyName 1 7 [.Object])
        (str_bytes " b true \x7d") =
      .ok (.PropertyName "b")
        (pstate .ExpectingValue 1 10 [.Object]) (str_bytes "true \x7d")
    ∧ Parser.next 99 (pstate .ExpectingValue 1 10 [.Object]) (str_bytes "true \x7d") =
      .ok (.SimpleValue (.Boolean true))
        (pstate .ExpectingPropertyName 1 15 [.Object]) (str_bytes "\x7d")
    ∧ Parser.next 99 (pstate .ExpectingPropertyName 1 15 [.Object]) (str_bytes "\x7d") =
      .ok (.End .Object) (pstate .ExpectingPropertyName 1 16 []) []
    ∧ Parser.next 99 (pstate .ExpectingPropertyName 1 16 []) [] =
      .fail .incomplete (pstate .ExpectingPropertyName 1 16 []) [] := by
  refine ⟨by decide, by decide, by decide, by decide, by decide, by decide, by decide⟩

/-- C7: feeding the chunk `"hel` produces the incomplete signal, not an
error, and re-running the parse from the same start position on the
concatenated bytes `"hello"` produces `SimpleValue(String("hello"))`,
the same result as if all bytes had been available from the start. -/
theorem parse_string_chunked_deterministic :
    Parser.next 99 Parser.init (str_bytes "\"hel") =
      .fail .incomplete
        { state := .ExpectingValue, location := ⟨1, 1, 0⟩, buf_location := ⟨1, 5, 0⟩,
          maybe_peek := none, newline_count := 0, nesting := [],
          just_parsed_doc_comment := false } []
    ∧ Parser.next 99 Parser.init (str_bytes "\"hello\"") =
      .ok (.SimpleValue (.String "hello"))
        { state := .ExpectingValue, location := ⟨1, 8, 0⟩, buf_location := ⟨1, 8, 0⟩,
          maybe_peek := none, newline_count := 0, nesting := [],
          just_parsed_doc_comment := false } [] := by
  exact ⟨by decide, by decide⟩

/-- C9 (code bug): in the `ExpectingValue` state a `+` is not matched by
the `'-' | '0'..='9'` arm of `Parser::next` and falls to the catch-all,
so the input `+1` is rejected with `UnexpectedChar('+')` instead of
being delegated to number/date classification (whose own
`'-' | '+'` arm in `parse_number_or_date` is unreachable). -/
theorem lex_plus_digit_rejected :
    Parser.next 99 Parser.init (str_bytes "+1") =
      .fail (.error ⟨1, 2, .UnexpectedChar '+'⟩)
        { state := .ExpectingValue, location := ⟨1, 1, 0⟩, buf_location := ⟨1, 2, 0⟩,
          maybe_peek := none, newline_count := 0, nesting := [],
          just_parsed_doc_comment := false } (str_bytes "1") := by
  decide

/-- C5 (code bug): the lexer turns `{ a [ 1 ] }` into the well-formed
event run `Start(Object), PropertyName("a"), Start(Array),
SimpleValue(1), End(Array), End(Object)`, but `DocValue::parse_object`
has no arm for `Start` events, so building an object whose property
value is a nested array (or object) fails with `UnexpectedItem` instead
of attaching the nested value to the property. -/
theorem build_nested_value_in_object_fails :
    Parser.next 99 Parser.init (str_bytes "\x7b a [ 1 ] \x7d") =
      .ok (.Start .Object)
        (pstate .ExpectingPropertyName 1 2 [.Object]) (str_bytes " a [ 1 ] \x7d")
    ∧ Parser.next 99 (pstate .ExpectingPropertyName 1 2 [.Object])
        (str_bytes " a [ 1 ] \x7d") =
      .ok (.PropertyName "a")
        (pstate .ExpectingValue 1 5 [.Object]) (str_bytes "[ 1 ] \x7d")
    ∧ Parser.next 99 (pstate .ExpectingValue 1 5 [.Object]) (str_bytes "[ 1 ] \x7d") =
      .ok (.Start .Array)
        (pstate .ExpectingValue 1 6 [.Array, .Object]) (str_bytes " 1 ] \x7d")
    ∧ Parser.next 99 (pstate .ExpectingValue 1 6 [.Array, .Object])
        (str_bytes " 1 ] \x7d") =
      .ok (.SimpleValue (.Number (.Unsigned 1)))
        (pstate .ExpectingValue 1 9 [.Array, .Object]) (str_bytes "] \x7d")
    ∧ Parser.next 99 (pstate .ExpectingValue 1 9 [.Array, .Object]) (str_bytes "] \x7d") =
      .ok (.End .Array)
        (pstate .ExpectingPropertyName 1 10 [.Object]) (str_bytes " \x7d")
    ∧ Parser.next 99 (pstate .ExpectingPropertyName 1 10 [.Object]) (str_bytes " \x7d") =
      .ok (.End .Object) (pstate .ExpectingPropertyName 1 12 []) []
    ∧ DocValue.from_events 99 []
        [.Start .Object, .PropertyName "a", .Start .Array,
         .SimpleValue (.Number (.Unsigned 1)), .End .Array, .End .Object] =
      .err (.Parse .UnexpectedItem) := by
  refine ⟨by decide, by decide, by decide, by decide, by decide, by decide, by rfl⟩

/-- C6: whenever a simple value completes a property whose name is
already a key of the object under construction, `DocValue::parse_object`
fails with `DuplicatePropertyName` for that name — it never overwrites;
concretely, `{ a 1, a 2 }` lexes to a duplicate-name event run and
building it fails with `DuplicatePropertyName("a")`. -/
theorem build_duplicate_property_fails :
    (∀ (fuel : Nat) (map : List (String × DocValue)) (dc : List String)
        (rest : List Event) (n : String) (v : SimpleValue),
        contains_key map n = true →
        DocValue.parse_object_go (fuel + 1) map (some n) dc (.SimpleValue v :: rest) =
          .err (.Parse (.DuplicatePropertyName n)))
    ∧ Parser.next 99 Parser.init (str_bytes "\x7b a 1, a 2 \x7d") =
      .ok (.Start .Object)
        (pstate .ExpectingPropertyName 1 2 [.Object]) (str_bytes " a 1, a 2 \x7d")
    ∧ Parser.next 99 (pstate .ExpectingPropertyName 1 2 [.Object])
        (str_bytes " a 1, a 2 \x7d") =
      .ok (.PropertyName "a")
        (pstate .ExpectingValue 1 5 [.Object]) (str_bytes "1, a 2 \x7d")
    ∧ Parser.next 99 (pstate .ExpectingValue 1 5 [.Object]) (str_bytes "1, a 2 \x7d") =
      .ok (.SimpleValue (.Number (.Unsigned 1)))
        (pstate .ExpectingPropertyName 1 7 [.Object]) (str_bytes " a 2 \x7d")
    ∧ Parser.next 99 (pstate .ExpectingPropertyName 1 7 [.Object])
        (str_bytes " a 2 \x7d") =
      .ok (.PropertyName "a")
        (pstate .ExpectingValue 1 10 [.Object]) (str_bytes "2 \x7d")
    ∧ Parser.next 99 (pstate .ExpectingValue 1 10 [.Object]) (str_bytes "2 \x7d") =
      .ok (.SimpleValue (.Number (.Unsigned 2)))
        (pstate .ExpectingPropertyName 1 12 [.Object]) (str_bytes "\x7d")
    ∧ Parser.next 99 (pstate .ExpectingPropertyName 1 12 [.Object]) (str_bytes "\x7d") =
      .ok (.End .Object) (pstate .ExpectingPropertyName 1 13 []) []
    ∧ DocValue.from_events 99 []
        [.Start .Object, .PropertyName "a",
         .SimpleValue (.Number (.Unsigned 1)), .PropertyName "a",
         .SimpleValue (.Number (.Unsigned 2)), .End .Object] =
      .err (.Parse (.DuplicatePropertyName "a")) := by
  refine ⟨?_, by decide, by decide, by decide, by decide, by decide, by decide, by rfl⟩
  intro fuel map dc rest n v h
  simp [DocValue.parse_object_go, h]

/-- Witness for `build_duplicate_property_fails`: the duplicate-name
component applied at a concrete one-entry map. -/
theorem build_duplicate_property_fails_witness :
    DocValue.parse_object_go 1 [("a", .mk none .Null)] (some "a") []
        [.SimpleValue .Null] =
      .err (.Parse (.DuplicatePropertyName "a")) :=
  build_duplicate_property_fails.1 0 [("a", .mk none .Null)] [] [] "a" .Null (by rfl)

/-- C8 (amended): within `Parser::next`, a token attempt (one iteration
of its loop) that returns `Incomplete` or a parse error leaves the
committed position (`Parser::location`) exactly as it was when the
attempt started; only the working `buf_location` may have moved. -/
theorem parser_failed_attempt_preserves_location :
    ∀ (fuel : Nat) (p : Parser) (buf : Buf) (e : EoI) (q : Parser) (b : Buf),
      p.next_iter fuel buf = .fail e q b → q.location = p.location := by
  intro fuel p buf e q b h
  have hi := next_iter_invariant fuel p buf
  rw [h] at hi
  exact hi.1

/-- Witness for `parser_failed_attempt_preserves_location`: the token
attempt on the chunk `"hel` consumes four characters (the working
position reaches column 5) and returns `Incomplete`, and the committed
position is still the initial one. -/
theorem parser_failed_attempt_preserves_location_witness :
    Parser.location
      { state := .ExpectingValue, location := ⟨1, 1, 0⟩, buf_location := ⟨1, 5, 0⟩,
        maybe_peek := none, newline_count := 0, nesting := [],
        just_parsed_doc_comment := false } = Parser.init.location :=
  parser_failed_attempt_preserves_location 98 Parser.init (str_bytes "\"hel")
    .incomplete
    { state := .ExpectingValue, location := ⟨1, 1, 0⟩, buf_location := ⟨1, 5, 0⟩,
      maybe_peek := none, newline_count := 0, nesting := [],
      just_parsed_doc_comment := false } []
    (by decide)

/-- C10: across successful `Parser::next` calls the `Start`/`End` events
are well bracketed.  (i) A `Start k` event pushes `k` onto the nesting
stack, an `End k` event pops exactly the matching top entry `k`, and any
other event leaves the stack unchanged.  (ii) `end_complex_value` fails
with `UnexpectedChar` whenever the closing bracket does not match the
top of the stack (or the stack is empty).  (iii) Consequently the event
sequence produced from any state replays onto the nesting stack without
ever hitting a mismatched or unmatched closing bracket, so every emitted
prefix is balanced and properly nested relative to the starting stack. -/
theorem parser_start_end_well_bracketed :
    (∀ (fuel : Nat) (p : Parser) (buf : Buf) (ev : Event) (q : Parser) (b : Buf),
        Parser.next fuel p buf = .ok ev q b →
        (∀ k, ev = .Start k → q.nesting = k :: p.nesting)
        ∧ (∀ k, ev = .End k → p.nesting = k :: q.nesting)
        ∧ (is_start_end ev = false → q.nesting = p.nesting))
    ∧ (∀ (p : Parser) (ch : Char) (cv : ComplexValue),
        p.nesting.head? ≠ some cv →
        p.end_complex_value ch cv = .err (p.err_in_buf (.UnexpectedChar ch)))
    ∧ (∀ (outer fuel : Nat) (p : Parser) (buf : Buf),
        ∃ st, apply_brackets p.nesting (Parser.lex_all outer fuel p buf).1 = some st) := by
  refine ⟨?_, ?_, ?_⟩
  · intro fuel p buf ev q b h
    have hen := next_nesting fuel p buf ev q b h
    refine ⟨?_, ?_, ?_⟩
    · intro k hk; subst hk; exact hen
    · intro k hk; subst hk; exact hen
    · intro hse
      cases ev with
      | Start k => simp [is_start_end] at hse
      | End k => simp [is_start_end] at hse
      | Linespace => exact hen
      | DocCommentLine s => exact hen
      | SimpleValue v => exact hen
      | PropertyName s => exact hen
  · intro p ch cv h
    exact (end_complex_value_spec p ch cv).2 h
  · intro outer fuel p buf
    exact lex_all_brackets outer fuel p buf

/-- Witness for `parser_start_end_well_bracketed`: applied to the
concrete run lexing `[` from the initial state (which pushes `Array`),
and to closing `]` in the initial state (empty stack, which fails). -/
theorem parser_start_end_well_bracketed_witness :
    (pstate .ExpectingValue 1 2 [.Array]).nesting = .Array :: Parser.init.nesting
    ∧ Parser.init.end_complex_value ']' .Array =
        .err (Parser.init.err_in_buf (.UnexpectedChar ']')) :=
  ⟨(parser_start_end_well_bracketed.1 9 Parser.init (str_bytes "[") (.Start .Array)
      (pstate .ExpectingValue 1 2 [.Array]) [] (by decide)).1 .Array rfl,
   parser_start_end_well_bracketed.2.1 Parser.init ']' .Array (by decide)⟩

/-- C8 (counterexample): a `Parser::next` call that returns `Incomplete`
can move the committed position.  After lexing `[`, the committed
position is line 1, column 2; calling `next` on the buffer `,` consumes
the separator comma (an event-less token, committing the position to
column 3) and then hits the empty buffer, returning `Incomplete` with
the committed position changed from column 2 to column 3. -/
theorem parser_next_incomplete_moves_committed_location :
    Parser.next 99 Parser.init (str_bytes "[") =
      .ok (.Start .Array)
        { state := .ExpectingValue, location := ⟨1, 2, 0⟩, buf_location := ⟨1, 2, 0⟩,
          maybe_peek := none, newline_count := 0, nesting := [.Array],
          just_parsed_doc_comment := false } []
    ∧ Parser.next 99
        { state := .ExpectingValue, location := ⟨1, 2, 0⟩, buf_location := ⟨1, 2, 0⟩,
          maybe_peek := none, newline_count := 0, nesting := [.Array],
          just_parsed_doc_comment := false } (str_bytes ",") =
      .fail .incomplete
        { state := .ExpectingValue, location := ⟨1, 3, 0⟩, buf_location := ⟨1, 3, 0⟩,
          maybe_peek := none, newline_count := 0, nesting := [.Array],
          just_parsed_doc_comment := false } []
    ∧ (⟨1, 3, 0⟩ : Location) ≠ (⟨1, 2, 0⟩ : Location) := by
  refine ⟨by decide, by decide, by decide⟩

end Gunny

